import Mathlib

/-!
# Verification of the Desktop MCP core (command parser, tool registry, plugin loader)

A shallow embedding, in Lean 4, of the core of the Desktop-MCP repository:

* `src/desktop_mcp/core/command_parser.py` — the natural-language command parser,
* `src/desktop_mcp/tools/base_tool.py` — parameter validation, `safe_execute`,
  and the tool registry,
* `src/desktop_mcp/core/plugin_manager.py` — plugin discovery and reload.

Python strings are modelled over `List Char` restricted to the ASCII behaviour of
`str.lower` / `str.strip` (the repository only ever feeds ASCII command text and
ASCII tool names through these functions).  The optional third-party libraries
(`spacy`, `fuzzywuzzy`) are modelled as oracle functions carried in an
environment record: the source guards every use of them behind
`SPACY_AVAILABLE` / `FUZZY_AVAILABLE` flags, which the environment also carries.

The theorems at the end of the file settle the frozen claims C1–C10.
-/

namespace DesktopMCP

/-! ## Python character and string primitives -/

/-- The ASCII whitespace characters recognised by Python's `str.strip()` and the
regex class `\s` (space, tab, newline, carriage return, vertical tab, form feed). -/
def isPySpace (c : Char) : Bool :=
  decide (c.toNat = 32 ∨ c.toNat = 9 ∨ c.toNat = 10 ∨ c.toNat = 13 ∨ c.toNat = 11 ∨ c.toNat = 12)

/-- ASCII case folding of a single character, as performed by Python's
`str.lower()` on ASCII text: `A`–`Z` (codes 65–90) map to `a`–`z` (codes 97–122),
everything else is unchanged. -/
def pyLowerChar (c : Char) : Char :=
  if 65 ≤ c.toNat ∧ c.toNat ≤ 90 then Char.ofNat (c.toNat + 32) else c

/-- Python `s.lower()` on a character list. -/
def pyLowerL (l : List Char) : List Char := l.map pyLowerChar

/-- Python `s.strip()` on a character list: drop leading and trailing whitespace. -/
def pyStripL (l : List Char) : List Char :=
  ((l.dropWhile isPySpace).reverse.dropWhile isPySpace).reverse

/-- Python `s.lower()` on a `String`. -/
def pyLower (s : String) : String := ⟨pyLowerL s.data⟩

/-- Python `s.strip()` on a `String`. -/
def pyStrip (s : String) : String := ⟨pyStripL s.data⟩

/-- The input normalisation performed at the top of `parse_command`:
`command.strip().lower()`. -/
def pyNormalize (s : String) : String := pyLower (pyStrip s)

/-- Substring occurrence on character lists (helper for Python's `in` on strings). -/
def isSubListOf (needle : List Char) : List Char → Bool
  | [] => needle.isEmpty
  | c :: rest => needle.isPrefixOf (c :: rest) || isSubListOf needle rest

/-- Python's substring test `needle in hay` on strings. -/
def pyContains (hay needle : String) : Bool := isSubListOf needle.data hay.data

theorem toNat_ofNat_valid {n : ℕ} (h : n.isValidChar) : (Char.ofNat n).toNat = n := by
  unfold Char.ofNat
  rw [dif_pos h]
  rfl

theorem toNat_pyLowerChar (c : Char) :
    (pyLowerChar c).toNat = if 65 ≤ c.toNat ∧ c.toNat ≤ 90 then c.toNat + 32 else c.toNat := by
  unfold pyLowerChar
  split
  · next h =>
    exact toNat_ofNat_valid (Or.inl (by omega))
  · rfl

theorem pyLowerChar_of_not_upper {c : Char} (h : ¬(65 ≤ c.toNat ∧ c.toNat ≤ 90)) :
    pyLowerChar c = c := by
  unfold pyLowerChar
  rw [if_neg h]

theorem pyLowerChar_idem (c : Char) : pyLowerChar (pyLowerChar c) = pyLowerChar c := by
  by_cases h : 65 ≤ c.toNat ∧ c.toNat ≤ 90
  · apply pyLowerChar_of_not_upper
    rw [toNat_pyLowerChar, if_pos h]
    omega
  · rw [pyLowerChar_of_not_upper h, pyLowerChar_of_not_upper h]

theorem isPySpace_pyLowerChar (c : Char) : isPySpace (pyLowerChar c) = isPySpace c := by
  unfold isPySpace
  rw [toNat_pyLowerChar]
  by_cases h : 65 ≤ c.toNat ∧ c.toNat ≤ 90
  · rw [if_pos h]
    exact decide_eq_decide.mpr (by omega)
  · rw [if_neg h]

theorem dropWhile_dropWhile {α : Type} (p : α → Bool) (l : List α) :
    (l.dropWhile p).dropWhile p = l.dropWhile p := by
  induction l with
  | nil => rfl
  | cons a l ih =>
    by_cases h : p a
    · simp [List.dropWhile_cons, h, ih]
    · simp [List.dropWhile_cons, h]

theorem head_dropWhile_not {α : Type} (p : α → Bool) (l : List α) {a : α} {t : List α}
    (h : l.dropWhile p = a :: t) : p a = false := by
  induction l with
  | nil => simp at h
  | cons b l ih =>
    by_cases hb : p b
    · rw [List.dropWhile_cons_of_pos hb] at h
      exact ih h
    · rw [List.dropWhile_cons_of_neg hb] at h
      injection h with h1 h2
      rw [← h1]
      cases hpa : p b
      · rfl
      · exact absurd hpa hb

theorem dropWhile_of_head_not {α : Type} (p : α → Bool) (a : α) (t : List α)
    (h : p a = false) : (a :: t).dropWhile p = a :: t := by
  rw [List.dropWhile_cons_of_neg (by simp [h])]

theorem pyLowerL_pyStripL (l : List Char) : pyLowerL (pyStripL l) = pyStripL (pyLowerL l) := by
  unfold pyLowerL pyStripL
  have hcomp : (isPySpace ∘ pyLowerChar) = isPySpace := by
    funext c
    exact isPySpace_pyLowerChar c
  simp only [List.dropWhile_map, hcomp, ← List.map_reverse]

theorem pyStripL_idem (l : List Char) : pyStripL (pyStripL l) = pyStripL l := by
  unfold pyStripL
  set u := l.dropWhile isPySpace with hu
  set v := (u.reverse.dropWhile isPySpace).reverse with hv
  -- `v` is `u` with trailing whitespace removed; its head (if any) is the head of `u`.
  have hvrev : v.reverse = u.reverse.dropWhile isPySpace := by rw [hv, List.reverse_reverse]
  have hdropv : v.dropWhile isPySpace = v := by
    cases hcase : v with
    | nil => rfl
    | cons a t =>
      -- a is the first element of v, which is the first element of u
      have hsuffix : v.reverse <:+ u.reverse := by
        rw [hvrev]; exact List.dropWhile_suffix _
      have hpre : v <+: u := List.reverse_suffix.mp hsuffix
      obtain ⟨r, hr⟩ := hpre
      rw [hcase] at hr
      have hu2 : u.dropWhile isPySpace = u := by
        rw [hu]; exact dropWhile_dropWhile _ _
      rw [← hr] at hu2
      have ha : isPySpace a = false := by
        cases h2 : isPySpace a
        · rfl
        · exfalso
          rw [List.cons_append, List.dropWhile_cons_of_pos h2] at hu2
          have hlen := congrArg List.length hu2
          have hle : (List.dropWhile isPySpace (t ++ r)).length ≤ (t ++ r).length :=
            (List.dropWhile_suffix isPySpace).length_le
          simp only [List.length_cons, List.length_append] at hlen
          simp only [List.length_append] at hle
          omega
      exact dropWhile_of_head_not isPySpace a t ha
  rw [hdropv]
  cases hcase : v.reverse with
  | nil =>
    have hy : v = [] := by
      have := congrArg List.reverse hcase
      simpa using this
    simp [hy]
  | cons a t =>
    have ha : isPySpace a = false := by
      apply head_dropWhile_not isPySpace u.reverse
      rw [← hvrev, hcase]
    calc ((a :: t).dropWhile isPySpace).reverse
        = (a :: t).reverse := by rw [dropWhile_of_head_not isPySpace a t ha]
      _ = v.reverse.reverse := by rw [← hcase]
      _ = v := List.reverse_reverse v

theorem pyLowerL_idem (l : List Char) : pyLowerL (pyLowerL l) = pyLowerL l := by
  unfold pyLowerL
  rw [List.map_map]
  apply List.map_congr_left
  intro c _
  exact pyLowerChar_idem c

/-- Normalisation (`strip` then `lower`) is idempotent. -/
theorem pyNormalize_idem (s : String) : pyNormalize (pyNormalize s) = pyNormalize s := by
  unfold pyNormalize pyLower pyStrip
  cases s with
  | mk data =>
    simp only
    rw [← pyLowerL_pyStripL, pyStripL_idem, pyLowerL_idem]

/-! ## Python values

`PyVal` models the Python values that flow through the parser and the tool
parameter validator: strings, ints, floats, bools, lists, dicts and `None`.
Python's `bool` is a subclass of `int`, which matters for `isinstance` checks in
`ToolParameter.validate`; this is handled where `isinstance` is modelled, not in
the data type. -/

inductive PyVal : Type where
  | str (s : String)
  | int (n : ℤ)
  | float (q : ℚ)
  | bool (b : Bool)
  | list (l : List PyVal)
  | dict (l : List (String × PyVal))
  | none
deriving Repr

mutual

/-- Python's `==` on the modelled values: numeric types (`int`, `float`, `bool`)
compare by numeric value across types, everything else structurally. -/
def pyEq : PyVal → PyVal → Bool
  | .str a, .str b => a = b
  | .int a, .int b => a = b
  | .int a, .float b => (a : ℚ) = b
  | .int a, .bool b => a = (if b then 1 else 0)
  | .float a, .int b => a = (b : ℚ)
  | .float a, .float b => a = b
  | .float a, .bool b => a = (if b then (1 : ℚ) else 0)
  | .bool a, .int b => (if a then (1 : ℤ) else 0) = b
  | .bool a, .float b => (if a then (1 : ℚ) else 0) = b
  | .bool a, .bool b => a = b
  | .list a, .list b => pyEqList a b
  | .dict a, .dict b => pyEqDict a b
  | .none, .none => true
  | _, _ => false

/-- Elementwise Python `==` on lists. -/
def pyEqList : List PyVal → List PyVal → Bool
  | [], [] => true
  | x :: xs, y :: ys => pyEq x y && pyEqList xs ys
  | _, _ => false

/-- Pairwise Python `==` on (insertion-ordered) dict entries. -/
def pyEqDict : List (String × PyVal) → List (String × PyVal) → Bool
  | [], [] => true
  | (k, x) :: xs, (k2, y) :: ys => k = k2 && pyEq x y && pyEqDict xs ys
  | _, _ => false

end

/-- Python dict `d[k] = v`: replace the value in place if the key exists,
otherwise append (Python dicts preserve insertion order). -/
def dictInsert (d : List (String × PyVal)) (k : String) (v : PyVal) : List (String × PyVal) :=
  if d.any (fun p => p.1 = k) then
    d.map (fun p => if p.1 = k then (k, v) else p)
  else
    d ++ [(k, v)]

/-- Python `d.update(e)`: insert every entry of `e` in order. -/
def dictUpdate (d e : List (String × PyVal)) : List (String × PyVal) :=
  e.foldl (fun acc p => dictInsert acc p.1 p.2) d

/-- Python `d.get(k)` (returning `None` when absent). -/
def dictGet (d : List (String × PyVal)) (k : String) : PyVal :=
  match d.find? (fun p => p.1 = k) with
  | some p => p.2
  | Option.none => .none

/-- Python `k in d` on dicts. -/
def dictHasKey (d : List (String × PyVal)) (k : String) : Bool :=
  d.any (fun p => p.1 = k)

/-! ## The tiny regex engine

`_convert_pattern_to_regex` substitutes the typed placeholders of a
`CommandPattern` template by capturing groups:

* `{file}` and `{path}` → `([^\s]+)`  (a non-whitespace run),
* `{app}` → `([a-zA-Z]+(?:\s+[a-zA-Z]+)*)`  (whitespace-separated word tokens),
* `{text}` → `(.+)`  (any non-newline run),
* `{number}` → `(\d+)`  (a digit run),

and the remaining characters of the template are literal (the builtin templates
contain no other regex metacharacters).  The engine below implements exactly
this fragment with Python `re.search` semantics: scan start positions left to
right, and at each position match the element sequence with greedy,
backtracking groups (longest capture first). -/

inductive GKind : Type where
  | nonspace
  | appwords
  | anytext
  | digits
deriving Repr, DecidableEq

inductive RElem : Type where
  | lit (s : List Char)
  | grp (g : GKind)
deriving Repr

def isAsciiAlpha (c : Char) : Bool :=
  decide ((65 ≤ c.toNat ∧ c.toNat ≤ 90) ∨ (97 ≤ c.toNat ∧ c.toNat ≤ 122))

def isAsciiDigit (c : Char) : Bool := decide (48 ≤ c.toNat ∧ c.toNat ≤ 57)

/-- Lengths of the prefixes of `cs` accepted by `[a-zA-Z]+(?:\s+[a-zA-Z]+)*`,
in ascending order: the end position of each whitespace-separated word-token
run starting at the beginning of `cs`. -/
def appwordsLensFrom (base : ℕ) (cs : List Char) (fuel : ℕ) : List ℕ :=
  match fuel with
  | 0 => []
  | fuel + 1 =>
    let sp := cs.takeWhile isPySpace
    let rest := cs.drop sp.length
    let al := rest.takeWhile isAsciiAlpha
    if sp.length = 0 ∧ base ≠ 0 then []
    else if al.length = 0 then []
    else
      let k := base + sp.length + al.length
      k :: appwordsLensFrom k (cs.drop (sp.length + al.length)) fuel

/-- The candidate capture lengths for a group kind on input `cs`, in the order a
backtracking greedy matcher tries them (longest first). -/
def gkindLens (g : GKind) (cs : List Char) : List ℕ :=
  match g with
  | .nonspace =>
    let n := (cs.takeWhile (fun c => !isPySpace c)).length
    (List.range n).map (fun i => n - i)
  | .digits =>
    let n := (cs.takeWhile isAsciiDigit).length
    (List.range n).map (fun i => n - i)
  | .anytext =>
    let n := (cs.takeWhile (fun c => c ≠ '\n')).length
    (List.range n).map (fun i => n - i)
  | .appwords => (appwordsLensFrom 0 cs (cs.length + 1)).reverse

/-- The candidate (capture, rest) splits for a group on `cs`, greedy order. -/
def gkindCands (g : GKind) (cs : List Char) : List (List Char × List Char) :=
  (gkindLens g cs).map (fun k => (cs.take k, cs.drop k))

/-- Match an element sequence at the start of `cs` (Python `re.match` at a fixed
position), returning the list of captured groups of the first match found in
backtracking order.  The end of the input need not be reached. -/
def matchElems : List RElem → List Char → Option (List (List Char))
  | [], _ => some []
  | .lit s :: es, cs =>
    if s.isPrefixOf cs then matchElems es (cs.drop s.length) else Option.none
  | .grp g :: es, cs =>
    (gkindCands g cs).findSome? (fun p => (matchElems es p.2).map (p.1 :: ·))

/-- Python `re.search`: try to match at every start position, left to right. -/
def reSearch (es : List RElem) : List Char → Option (List (List Char))
  | [] => matchElems es []
  | c :: t =>
    match matchElems es (c :: t) with
    | some gs => some gs
    | Option.none => reSearch es t

/-- The placeholder table of `_convert_pattern_to_regex`. -/
def placeholderKind (s : String) : Option GKind :=
  if s = "{file}" then some .nonspace
  else if s = "{app}" then some .appwords
  else if s = "{text}" then some .anytext
  else if s = "{number}" then some .digits
  else if s = "{path}" then some .nonspace
  else Option.none

def placeholderList : List (String × GKind) :=
  [("{file}", .nonspace), ("{app}", .appwords), ("{text}", .anytext),
   ("{number}", .digits), ("{path}", .nonspace)]

/-- Compile a pattern template into the element sequence its converted regex
denotes (`_convert_pattern_to_regex` followed by regex compilation): placeholder
occurrences become capturing groups, all other characters are literal. -/
def templateElemsAux (acc : List Char) (cs : List Char) (fuel : ℕ) : List RElem :=
  match fuel with
  | 0 => if acc.isEmpty then [] else [.lit acc.reverse]
  | fuel + 1 =>
    match cs with
    | [] => if acc.isEmpty then [] else [.lit acc.reverse]
    | c :: rest =>
      match placeholderList.find? (fun p => p.1.data.isPrefixOf (c :: rest)) with
      | some (ph, g) =>
        let tail := templateElemsAux [] ((c :: rest).drop ph.length) fuel
        if acc.isEmpty then .grp g :: tail else .lit acc.reverse :: .grp g :: tail
      | Option.none => templateElemsAux (c :: acc) rest fuel

def templateElems (s : String) : List RElem :=
  templateElemsAux [] s.data (s.data.length + 1)

/-! ## base_tool.py: categories, parameters, metadata, results -/

inductive ToolCategory : Type where
  | FILE_OPERATIONS
  | SYSTEM_CONTROL
  | MEDIA_PROCESSING
  | WEB_AUTOMATION
  | DEVELOPMENT
  | COMMUNICATION
  | PRODUCTIVITY
  | ENTERTAINMENT
  | UTILITIES
  | CUSTOM
deriving Repr, DecidableEq

inductive ParameterType : Type where
  | STRING
  | INTEGER
  | FLOAT
  | BOOLEAN
  | PATH
  | URL
  | EMAIL
  | LIST
  | DICT
  | FILE
  | DIRECTORY
deriving Repr, DecidableEq

/-- `ToolParameter` with its validation constraints.  `min_value` / `max_value`
are modelled as rationals (Python numbers). -/
structure ToolParameter : Type where
  name : String
  type : ParameterType
  description : String
  required : Bool := true
  default : PyVal := .none
  choices : Option (List PyVal) := Option.none
  min_value : Option ℚ := Option.none
  max_value : Option ℚ := Option.none
  pattern : Option String := Option.none
deriving Repr

/-- The external effects `ToolParameter.validate` depends on: matching a
user-supplied regex (`re.match(self.pattern, value)`) and querying the
filesystem (`Path(value).is_file()` / `is_dir()`).  Both are outside the
repository, so they are oracle functions. -/
structure ValEnv : Type where
  reMatch : String → String → Bool
  isFile : String → Bool
  isDir : String → Bool

/-- Python `isinstance(v, str)`. -/
def isInstStr : PyVal → Bool
  | .str _ => true
  | _ => false

/-- Python `isinstance(v, int)`.  `bool` is a subclass of `int`. -/
def isInstInt : PyVal → Bool
  | .int _ => true
  | .bool _ => true
  | _ => false

/-- Python `isinstance(v, (int, float))`. -/
def isInstNum : PyVal → Bool
  | .int _ => true
  | .bool _ => true
  | .float _ => true
  | _ => false

/-- The numeric value of an `int`/`float`/`bool` (Python treats `True` as 1). -/
def pyNumVal : PyVal → ℚ
  | .int n => (n : ℚ)
  | .float q => q
  | .bool b => if b then 1 else 0
  | _ => 0

/-- Rendering of a number into an error message (`f"... {self.min_value}"`).
Integral values render exactly as Python does; non-integral values use the
num/den form, a formatting approximation that no claim exercises. -/
def pyNumStr (q : ℚ) : String :=
  if q.den = 1 then toString q.num else toString q.num ++ "/" ++ toString q.den

/-- Character class of the local part of the email regex in
`ToolParameter.validate`: `[a-zA-Z0-9._%+-]`. -/
def isEmailLocalChar (c : Char) : Bool :=
  isAsciiAlpha c || isAsciiDigit c || c = '.' || c = '_' || c = '%' || c = '+' || c = '-'

/-- Character class of the domain part: `[a-zA-Z0-9.-]`. -/
def isEmailDomChar (c : Char) : Bool :=
  isAsciiAlpha c || isAsciiDigit c || c = '.' || c = '-'

/-- Anchored match of the email regex
`^[a-zA-Z0-9._%+-]+@[a-zA-Z0-9.-]+\.[a-zA-Z]{2,}$` used by
`ToolParameter.validate` (`re.match` with the whole string consumed by the
trailing `$`). -/
def emailRegexOk (s : String) : Bool :=
  let cs := s.data
  let loc := cs.takeWhile isEmailLocalChar
  let rest := cs.drop loc.length
  match loc, rest with
  | [], _ => false
  | _, '@' :: dom =>
    -- `[a-zA-Z0-9.-]+\.[a-zA-Z]{2,}$`: some split of `dom` into a non-empty
    -- domain-character run, a literal dot, and at least two letters.
    (List.range dom.length).any (fun i =>
      let d := dom.take i
      let after := dom.drop i
      decide (d ≠ []) && d.all isEmailDomChar &&
      (match after with
       | '.' :: tld => decide (2 ≤ tld.length) && tld.all isAsciiAlpha
       | _ => false))
  | _, _ => false

/-- `urllib.parse.urlparse(value)` then `all([parsed.scheme, parsed.netloc])`:
the string must have the shape `scheme://netloc...` with a non-empty scheme
(letter first) and a non-empty network location. -/
def pyUrlOk (s : String) : Bool :=
  let cs := s.data
  let scheme := cs.takeWhile (fun c => isAsciiAlpha c || isAsciiDigit c || c = '+' || c = '-' || c = '.')
  let rest := cs.drop scheme.length
  match scheme, rest with
  | c :: _, ':' :: '/' :: '/' :: netrest =>
    isAsciiAlpha c &&
    decide ((netrest.takeWhile (fun c => c ≠ '/' ∧ c ≠ '?' ∧ c ≠ '#')).length ≠ 0)
  | _, _ => false

/-- `ToolParameter.validate` (base_tool.py lines 61–122), returning the pair
`(is_valid, error_message)`. -/
def ToolParameter.validate (venv : ValEnv) (p : ToolParameter) (value : PyVal) :
    Bool × Option String :=
  match value with
  | .none =>
    if p.required then (false, some ("Parameter '" ++ p.name ++ "' is required"))
    else (true, Option.none)
  | v =>
    -- Type validation (elif chain)
    if decide (p.type = .STRING) && ! isInstStr v then
      (false, some ("Parameter '" ++ p.name ++ "' must be a string"))
    else if decide (p.type = .INTEGER) && ! isInstInt v then
      (false, some ("Parameter '" ++ p.name ++ "' must be an integer"))
    else if decide (p.type = .FLOAT) && ! isInstNum v then
      (false, some ("Parameter '" ++ p.name ++ "' must be a number"))
    else if decide (p.type = .BOOLEAN) && ! (match v with | .bool _ => true | _ => false) then
      (false, some ("Parameter '" ++ p.name ++ "' must be a boolean"))
    else if decide (p.type = .LIST) && ! (match v with | .list _ => true | _ => false) then
      (false, some ("Parameter '" ++ p.name ++ "' must be a list"))
    else if decide (p.type = .DICT) && ! (match v with | .dict _ => true | _ => false) then
      (false, some ("Parameter '" ++ p.name ++ "' must be a dictionary"))
    -- Range validation for numbers
    else if (decide (p.type = .INTEGER) || decide (p.type = .FLOAT)) && isInstNum v &&
        (match p.min_value with | some m => decide (pyNumVal v < m) | Option.none => false) then
      (false, some ("Parameter '" ++ p.name ++ "' must be >= " ++
        pyNumStr (p.min_value.getD 0)))
    else if (decide (p.type = .INTEGER) || decide (p.type = .FLOAT)) && isInstNum v &&
        (match p.max_value with | some m => decide (m < pyNumVal v) | Option.none => false) then
      (false, some ("Parameter '" ++ p.name ++ "' must be <= " ++
        pyNumStr (p.max_value.getD 0)))
    -- Choice validation (`if self.choices and value not in self.choices`)
    else if (match p.choices with
             | some (c :: cl) => ! ((c :: cl).any (fun ch => pyEq v ch))
             | _ => false) then
      (false, some ("Parameter '" ++ p.name ++ "' must be one of the declared choices"))
    -- Pattern validation for strings
    else if decide (p.type = .STRING) &&
        (match p.pattern, v with
         | some pat, .str s => decide (pat ≠ "") && ! venv.reMatch pat s
         | _, _ => false) then
      (false, some ("Parameter '" ++ p.name ++ "' does not match required pattern"))
    -- Path validation
    else if decide (p.type = .FILE) &&
        (match v with | .str s => ! venv.isFile s | _ => false) then
      (false, some ("File not found: " ++ (match v with | .str s => s | _ => "")))
    else if decide (p.type = .DIRECTORY) &&
        (match v with | .str s => ! venv.isDir s | _ => false) then
      (false, some ("Directory not found: " ++ (match v with | .str s => s | _ => "")))
    -- URL validation
    else if decide (p.type = .URL) &&
        (match v with | .str s => ! pyUrlOk s | _ => false) then
      (false, some ("Invalid URL format: " ++ (match v with | .str s => s | _ => "")))
    -- Email validation
    else if decide (p.type = .EMAIL) &&
        (match v with | .str s => ! emailRegexOk s | _ => false) then
      (false, some ("Invalid email format: " ++ (match v with | .str s => s | _ => "")))
    else (true, Option.none)

structure ToolMetadata : Type where
  name : String
  description : String
  category : ToolCategory
  version : String := "1.0.0"
  author : String := "Desktop MCP"
  keywords : List String := []
  parameters : List ToolParameter := []
  requirements : List String := []
  platforms : List String := ["windows", "linux", "darwin"]
  min_python_version : String := "3.10"
  examples : List String := []
deriving Repr

/-- `ToolResult` (timestamp modelled as a rational clock value; `safe_execute`
never touches it, so it keeps the default of the construction site). -/
structure ToolResult : Type where
  success : Bool
  message : String
  data : Option (List (String × PyVal)) := Option.none
  error : Option String := Option.none
  execution_time : ℚ := 0
  timestamp : ℚ := 0
deriving Repr

/-- A concrete tool: its metadata, its `execute` body (which may raise, modelled
by `Except`), and the `__module__` of its class (stamped by the plugin loader's
synthetic module name; used by `reload_plugin` to find a unit's tools). -/
structure Tool : Type where
  metadata : ToolMetadata
  execute : List (String × PyVal) → Except String ToolResult
  module : String := "builtin"

/-- `BaseTool.validate_parameters`: validate each declared parameter in order
against `kwargs.get(name)` (fail-fast on the first violation), then reject
unexpected keys as a batch. -/
def validate_parameters (venv : ValEnv) (md : ToolMetadata)
    (kwargs : List (String × PyVal)) : Bool × Option String :=
  match (md.parameters.map
      (fun p => ToolParameter.validate venv p (dictGet kwargs p.name))).find?
      (fun r => !r.1) with
  | some r => (false, r.2)
  | Option.none =>
    let expected := md.parameters.map (fun p => p.name)
    let unexpected := (kwargs.map (fun q => q.1)).filter (fun k => ¬ expected.contains k)
    if unexpected.isEmpty then (true, Option.none)
    else (false, some ("Unexpected parameters: " ++ String.intercalate ", " unexpected))

/-- `BaseTool.safe_execute`: validate, then run `execute` under a `try`.
`elapsed` stands for the `time.time() - start_time` measurement taken when the
returned result is built.  The function is total: it always returns a
`ToolResult` and never raises. -/
def safe_execute (venv : ValEnv) (tool : Tool) (kwargs : List (String × PyVal))
    (elapsed : ℚ) : ToolResult :=
  match validate_parameters venv tool.metadata kwargs with
  | (false, err) =>
    { success := false
      message := "Parameter validation failed"
      error := err
      execution_time := elapsed }
  | (true, _) =>
    match tool.execute kwargs with
    | .ok r => { r with execution_time := elapsed }
    | .error e =>
      { success := false
        message := "Tool execution failed"
        error := some ("Tool execution failed: " ++ e)
        execution_time := elapsed }

/-! ## ToolRegistry -/

/-- The tool registry: the primary name→tool mapping and the category index,
both insertion-ordered (Python dicts / lists). -/
structure ToolRegistry : Type where
  tools : List (String × Tool) := []
  categories : List (ToolCategory × List String) := []

/-- Ordered-dict insert for the primary mapping. -/
def toolsInsert (d : List (String × Tool)) (k : String) (v : Tool) : List (String × Tool) :=
  if d.any (fun p => p.1 = k) then
    d.map (fun p => if p.1 = k then (k, v) else p)
  else
    d ++ [(k, v)]

/-- `ToolRegistry.register`: insert or overwrite by name, then append the name
to its category's list when not already present (a new category gets an empty
list first). -/
def ToolRegistry.register (reg : ToolRegistry) (tool : Tool) : ToolRegistry :=
  let name := tool.metadata.name
  let tools := toolsInsert reg.tools name tool
  let category := tool.metadata.category
  let cats0 :=
    if reg.categories.any (fun p => p.1 = category) then reg.categories
    else reg.categories ++ [(category, [])]
  let cats :=
    cats0.map (fun p =>
      if p.1 = category then
        (p.1, if p.2.contains name then p.2 else p.2 ++ [name])
      else p)
  { tools := tools, categories := cats }

/-- `ToolRegistry.get_tool`. -/
def ToolRegistry.get_tool (reg : ToolRegistry) (name : String) : Option Tool :=
  (reg.tools.find? (fun p => p.1 = name)).map (fun p => p.2)

/-- `ToolRegistry.get_tools_by_category`: the category's name list, filtered to
names still present in the primary mapping, resolved there. -/
def ToolRegistry.get_tools_by_category (reg : ToolRegistry) (category : ToolCategory) :
    List Tool :=
  let tool_names := ((reg.categories.find? (fun p => p.1 = category)).map (fun p => p.2)).getD []
  (tool_names.filterMap (fun name => (reg.tools.find? (fun p => p.1 = name)).map (fun p => p.2)))

/-- `ToolRegistry.list_tools`. -/
def ToolRegistry.list_tools (reg : ToolRegistry) : List String :=
  reg.tools.map (fun p => p.1)

/-! ## command_parser.py: data types and the optional-library environment -/

structure ParsedCommand : Type where
  intent : String
  action : String
  entities : List (String × PyVal)
  confidence : ℚ
  tool_name : Option String := Option.none
  parameters : Option (List (String × PyVal)) := Option.none
  alternatives : Option (List String) := Option.none
deriving Repr

structure CommandPattern : Type where
  pattern : String
  intent : String
  action : String
  tool_name : String
  parameter_mapping : List (String × String)
  examples : List String
deriving Repr

/-- The optional third-party libraries the parser consults.  `spacy` and
`fuzzy` model the `SPACY_AVAILABLE` / `FUZZY_AVAILABLE` flags; the functions
model the library calls the source makes (integer scores 0–100 as returned by
`fuzzywuzzy`, and spaCy's named entities `(ent.label_, ent.text)` and verb
lemmas for a given document text). -/
structure Env : Type where
  spacy : Bool
  fuzzy : Bool
  ratioFn : String → String → ℕ
  partRatioFn : String → String → ℕ
  wratioFn : String → String → ℕ
  ents : String → List (String × String)
  verbs : String → List String

/-! ## Entity extraction (`_extract_common_entities`)

Each regex used by `_extract_common_entities` is implemented as an anchored
matcher fed to a `re.findall` scanner: try to match at each position from left
to right, emit the capture and continue after the match, otherwise advance one
character.  The matchers receive the previous character so that `\b` word
boundaries can be decided. -/

def isWordChar (c : Char) : Bool := isAsciiAlpha c || isAsciiDigit c || c = '_'

def isNonSpaceChar (c : Char) : Bool := !isPySpace c

/-- An anchored matcher: given the preceding character (`none` at the start of
the input) and the rest of the input, return the captured text and the input
remaining after the whole match. -/
def Matcher : Type := Option Char → List Char → Option (List Char × List Char)

/-- The `re.findall` scan loop.  `fuel` bounds the recursion (every step
consumes at least one character; callers pass `cs.length + 1`). -/
def findAllAux (m : Matcher) (prev : Option Char) (cs : List Char) (fuel : ℕ) :
    List (List Char) :=
  match fuel with
  | 0 => []
  | fuel + 1 =>
    match m prev cs with
    | some (cap, rest) => cap :: findAllAux m Option.none rest fuel
    | Option.none =>
      match cs with
      | [] => []
      | c :: t => findAllAux m (some c) t fuel

def findAll (m : Matcher) (cs : List Char) : List (List Char) :=
  findAllAux m Option.none cs (cs.length + 1)

/-- `([a-zA-Z]:[\\\/][^\s]+)` — Windows drive paths. -/
def winPathM : Matcher := fun _ cs =>
  match cs with
  | c :: ':' :: d :: rest =>
    if isAsciiAlpha c ∧ (d = '\\' ∨ d = '/') then
      let run := rest.takeWhile isNonSpaceChar
      if run.isEmpty then Option.none
      else some (c :: ':' :: d :: run, rest.drop run.length)
    else Option.none
  | _ => Option.none

/-- `(\/[^\s]+)` — absolute Unix paths. -/
def unixPathM : Matcher := fun _ cs =>
  match cs with
  | '/' :: rest =>
    let run := rest.takeWhile isNonSpaceChar
    if run.isEmpty then Option.none else some ('/' :: run, rest.drop run.length)
  | _ => Option.none

/-- `(\~\/[^\s]+)` — home-directory paths. -/
def homePathM : Matcher := fun _ cs =>
  match cs with
  | '~' :: '/' :: rest =>
    let run := rest.takeWhile isNonSpaceChar
    if run.isEmpty then Option.none else some ('~' :: '/' :: run, rest.drop run.length)
  | _ => Option.none

/-- `(\.\/[^\s]+)` — relative paths. -/
def relPathM : Matcher := fun _ cs =>
  match cs with
  | '.' :: '/' :: rest =>
    let run := rest.takeWhile isNonSpaceChar
    if run.isEmpty then Option.none else some ('.' :: '/' :: run, rest.drop run.length)
  | _ => Option.none

/-- `(\.\.[\\\/][^\s]+)` — parent-directory paths. -/
def parentPathM : Matcher := fun _ cs =>
  match cs with
  | '.' :: '.' :: d :: rest =>
    if d = '\\' ∨ d = '/' then
      let run := rest.takeWhile isNonSpaceChar
      if run.isEmpty then Option.none
      else some ('.' :: '.' :: d :: run, rest.drop run.length)
    else Option.none
  | _ => Option.none

/-- `https?://[^\s]+` — URLs. -/
def urlM : Matcher := fun _ cs =>
  let go (pre : List Char) (rest : List Char) : Option (List Char × List Char) :=
    let run := rest.takeWhile isNonSpaceChar
    if run.isEmpty then Option.none else some (pre ++ run, rest.drop run.length)
  match cs with
  | 'h' :: 't' :: 't' :: 'p' :: 's' :: ':' :: '/' :: '/' :: rest =>
    go ['h','t','t','p','s',':','/','/'] rest
  | 'h' :: 't' :: 't' :: 'p' :: ':' :: '/' :: '/' :: rest =>
    go ['h','t','t','p',':','/','/'] rest
  | _ => Option.none

/-- Word-boundary test between a preceding character and a current one. -/
def boundaryOk (prev : Option Char) (cur : Char) : Bool :=
  match prev with
  | Option.none => isWordChar cur
  | some c => isWordChar c ≠ isWordChar cur

/-- `\b\d+\b` — bare integers.  The digit run must be maximal and flanked by
non-word characters (shorter runs cannot satisfy the trailing `\b` because the
next character would be a digit). -/
def numberM : Matcher := fun prev cs =>
  let run := cs.takeWhile isAsciiDigit
  match run with
  | [] => Option.none
  | d :: _ =>
    if boundaryOk prev d then
      let rest := cs.drop run.length
      match rest with
      | [] => some (run, [])
      | c :: _ => if isWordChar c then Option.none else some (run, rest)
    else Option.none

/-- `"([^"]*)"` — double-quoted substrings (the capture excludes the quotes). -/
def quotedM : Matcher := fun _ cs =>
  match cs with
  | '"' :: rest =>
    let q := rest.takeWhile (fun c => c ≠ '"')
    match rest.drop q.length with
    | '"' :: rest2 => some (q, rest2)
    | _ => Option.none
  | _ => Option.none

/-- `\b[A-Za-z0-9._%+-]+@[A-Za-z0-9.-]+\.[A-Z|a-z]{2,}\b` — email addresses
(`re.findall`, no capture group, so the whole match is returned).  The local
part is a maximal run of its class (`@` cannot occur inside it, so greediness
needs no backtracking); the domain is split greedily at the rightmost dot that
leaves at least two letters followed by a word boundary. -/
def emailM : Matcher := fun prev cs =>
  let loc := cs.takeWhile isEmailLocalChar
  match loc with
  | [] => Option.none
  | l0 :: _ =>
    if boundaryOk prev l0 then
      match cs.drop loc.length with
      | '@' :: rest2 =>
        let dom := rest2.takeWhile isEmailDomChar
        -- greedy: largest dl ≥ 1 with a dot at dl followed by ≥ 2 letters and a boundary
        let fits (dl : ℕ) : Bool :=
          decide (1 ≤ dl) &&
          (match rest2.drop dl with
           | '.' :: after =>
             let tld := after.takeWhile isAsciiAlpha
             decide (2 ≤ tld.length) &&
             (match after.drop tld.length with
              | [] => true
              | c :: _ => !isWordChar c)
           | _ => false)
        match (List.range dom.length).map (fun i => dom.length - 1 - i) |>.find? fits with
        | some dl =>
          let after := rest2.drop (dl + 1)
          let tld := after.takeWhile isAsciiAlpha
          some (loc ++ '@' :: (rest2.take dl) ++ '.' :: tld, after.drop tld.length)
        | Option.none => Option.none
      | _ => Option.none
    else Option.none

def pathMatchers : List Matcher := [winPathM, unixPathM, homePathM, relPathM, parentPathM]

/-- Parse a digit run into the integer it denotes (`int(n)` in the source). -/
def digitsToInt (cs : List Char) : ℤ :=
  (cs.foldl (fun acc c => acc * 10 + (c.toNat - 48)) 0 : ℕ)

/-- `_extract_common_entities`: file paths (first path pattern that matches
anything wins), URLs, emails, bare integers and double-quoted substrings; a key
is added only when its list of matches is non-empty. -/
def extract_common_entities (command : String) : List (String × PyVal) :=
  let cs := command.data
  let paths :=
    (pathMatchers.map (fun m => findAll m cs)).find? (fun l => !l.isEmpty)
  let pathEnt : List (String × PyVal) :=
    match paths with
    | some l => [("file_paths", .list (l.map (fun g => .str ⟨g⟩)))]
    | Option.none => []
  let urls := findAll urlM cs
  let urlEnt : List (String × PyVal) :=
    if urls.isEmpty then [] else [("urls", .list (urls.map (fun g => .str ⟨g⟩)))]
  let emails := findAll emailM cs
  let emailEnt : List (String × PyVal) :=
    if emails.isEmpty then [] else [("emails", .list (emails.map (fun g => .str ⟨g⟩)))]
  let numbers := findAll numberM cs
  let numberEnt : List (String × PyVal) :=
    if numbers.isEmpty then [] else [("numbers", .list (numbers.map (fun g => .int (digitsToInt g))))]
  let quoted := findAll quotedM cs
  let quotedEnt : List (String × PyVal) :=
    if quoted.isEmpty then [] else [("quoted_strings", .list (quoted.map (fun g => .str ⟨g⟩)))]
  pathEnt ++ urlEnt ++ emailEnt ++ numberEnt ++ quotedEnt

/-! ## The parser pipeline -/

/-- `_extract_entities_from_match`: map the first regex group to the entity key
named by the placeholder appearing in the template (`groups[0] if groups else
None`). -/
def extract_entities_from_match (gs : List (List Char)) (pat : CommandPattern) :
    List (String × PyVal) :=
  let g0 : PyVal :=
    match gs.head? with
    | some g => .str ⟨g⟩
    | Option.none => .none
  (if pyContains pat.pattern "{file}" then [("file", g0)] else []) ++
  (if pyContains pat.pattern "{app}" then [("app", g0)] else []) ++
  (if pyContains pat.pattern "{text}" then [("text", g0)] else [])

/-- `_map_parameters`: translate entities into tool parameters through the
pattern's `parameter_mapping`. -/
def map_parameters (entities : List (String × PyVal)) (mapping : List (String × String)) :
    List (String × PyVal) :=
  mapping.foldl
    (fun params q =>
      if dictHasKey entities q.1 then dictInsert params q.2 (dictGet entities q.1)
      else params)
    []

/-- First element of a `PyVal.list`, for the `entities[k][0]` accesses of
`_infer_parameters` (those accesses are guarded by truthiness of the list). -/
def pyListHead : PyVal → PyVal
  | .list (v :: _) => v
  | _ => .none

/-- Truthiness of a list entity (`if entities[k]`). -/
def pyListTruthy : PyVal → Bool
  | .list (_ :: _) => true
  | _ => false

/-- `_infer_parameters`: heuristically fill a tool's parameters from the
extracted entities using substring checks on the parameter names. -/
def infer_parameters (reg : ToolRegistry) (entities : List (String × PyVal))
    (tool_name : Option String) : List (String × PyVal) :=
  match tool_name with
  | Option.none => []
  | some nm =>
    match reg.get_tool nm with
    | Option.none => []
    | some tool =>
      tool.metadata.parameters.foldl
        (fun params p =>
          let param_name := pyLower p.name
          if pyContains param_name "path" || pyContains param_name "file" then
            if dictHasKey entities "file_paths" && pyListTruthy (dictGet entities "file_paths") then
              dictInsert params p.name (pyListHead (dictGet entities "file_paths"))
            else if dictHasKey entities "file" then
              dictInsert params p.name (dictGet entities "file")
            else params
          else if pyContains param_name "url" then
            if dictHasKey entities "urls" && pyListTruthy (dictGet entities "urls") then
              dictInsert params p.name (pyListHead (dictGet entities "urls"))
            else params
          else if pyContains param_name "text" || pyContains param_name "message" then
            if dictHasKey entities "text" then
              dictInsert params p.name (dictGet entities "text")
            else if dictHasKey entities "quoted_strings" &&
                pyListTruthy (dictGet entities "quoted_strings") then
              dictInsert params p.name (pyListHead (dictGet entities "quoted_strings"))
            else params
          else if pyContains param_name "number" || pyContains param_name "count" then
            if dictHasKey entities "numbers" && pyListTruthy (dictGet entities "numbers") then
              dictInsert params p.name (pyListHead (dictGet entities "numbers"))
            else params
          else params)
        []

/-- The verb → (intent, action) table of `_determine_intent`, in source order. -/
def intentMapping : List (String × String × String) :=
  [("open", ("application", "launch")),
   ("start", ("application", "launch")),
   ("launch", ("application", "launch")),
   ("run", ("application", "launch")),
   ("close", ("application", "close")),
   ("quit", ("application", "close")),
   ("exit", ("application", "close")),
   ("copy", ("file", "copy")),
   ("move", ("file", "move")),
   ("delete", ("file", "delete")),
   ("remove", ("file", "delete")),
   ("create", ("file", "create")),
   ("make", ("file", "create")),
   ("zip", ("archive", "create")),
   ("compress", ("archive", "create")),
   ("extract", ("archive", "extract")),
   ("unzip", ("archive", "extract")),
   ("search", ("web", "search")),
   ("browse", ("web", "navigate")),
   ("visit", ("web", "navigate")),
   ("download", ("web", "download")),
   ("take", ("system", "screenshot")),
   ("capture", ("system", "screenshot")),
   ("monitor", ("system", "monitor")),
   ("check", ("system", "status"))]

/-- `_determine_intent`: the first extracted verb found in the table wins with
confidence 0.8; otherwise `("unknown", "none", 0.0)`. -/
def determine_intent (verbs : List String) : String × String × ℚ :=
  match verbs.findSome? (fun v => (intentMapping.find? (fun q => q.1 = v)).map (fun q => q.2)) with
  | some q => (q.1, q.2, mkRat 8 10)
  | Option.none => ("unknown", "none", 0)

/-- The intent → category table of `_find_best_tool_match`. -/
def categoryMapping : List (String × ToolCategory) :=
  [("file", .FILE_OPERATIONS),
   ("application", .SYSTEM_CONTROL),
   ("archive", .UTILITIES),
   ("web", .WEB_AUTOMATION),
   ("system", .SYSTEM_CONTROL)]

/-- `_find_best_tool_match`: first tool of the intent's category whose name or
description contains the action, else the category's first tool. -/
def find_best_tool_match (reg : ToolRegistry) (intent : String) (action : String) :
    Option String :=
  match categoryMapping.find? (fun q => q.1 = intent) with
  | Option.none => Option.none
  | some q =>
    let tools := reg.get_tools_by_category q.2
    match tools.find? (fun t =>
        pyContains (pyLower t.metadata.name) action ||
        pyContains (pyLower t.metadata.description) action) with
    | some t => some t.metadata.name
    | Option.none => (tools.head?).map (fun t => t.metadata.name)

/-- The fallback `ParsedCommand` used when nothing matches. -/
def unknownCommand : ParsedCommand :=
  { intent := "unknown", action := "none", entities := [], confidence := 0 }

/-- The fuzzy-example inner loop body of `_match_patterns`: an example whose
similarity (`fuzz.ratio / 100`) exceeds both 0.8 and the best confidence so far
becomes the new best candidate. -/
def patternFuzzyStep (env : Env) (pat : CommandPattern) (command : String)
    (st2 : Option ParsedCommand × ℚ) (ex : String) : Option ParsedCommand × ℚ :=
  let similarity : ℚ := mkRat (env.ratioFn command (pyLower ex)) 100
  if similarity > mkRat 8 10 ∧ similarity > st2.2 then
    let entities := extract_common_entities command
    (some { intent := pat.intent, action := pat.action, entities := entities,
            confidence := similarity, tool_name := some pat.tool_name,
            parameters := some (map_parameters entities pat.parameter_mapping) },
     similarity)
  else st2

/-- The per-pattern body of `_match_patterns`: regex match (fixed confidence
0.9, competing strictly), then the fuzzy example loop when available. -/
def patternStep (env : Env) (command : String) (st : Option ParsedCommand × ℚ)
    (pat : CommandPattern) : Option ParsedCommand × ℚ :=
  let st1 :=
    match reSearch (templateElems pat.pattern) command.data with
    | some gs =>
      let confidence : ℚ := mkRat 9 10
      let entities := extract_entities_from_match gs pat
      if confidence > st.2 then
        (some { intent := pat.intent, action := pat.action, entities := entities,
                confidence := confidence, tool_name := some pat.tool_name,
                parameters := some (map_parameters entities pat.parameter_mapping) },
         confidence)
      else st
    | Option.none => st
  if env.fuzzy then
    pat.examples.foldl (patternFuzzyStep env pat command) st1
  else st1

/-- `_match_patterns`: regex-match every pattern (confidence 0.9 on success),
and — when fuzzy matching is available — compare the command with each
pattern's examples (`fuzz.ratio`), candidates above similarity 0.8 competing by
score.  A candidate replaces the best one only on strictly greater confidence,
so earlier patterns win ties. -/
def match_patterns (env : Env) (patterns : List CommandPattern) (command : String) :
    ParsedCommand :=
  let final := patterns.foldl (patternStep env command) (Option.none, 0)
  final.1.getD unknownCommand

/-- `_parse_with_nlp`: spaCy named entities plus common entities, the verb
table for intent, and category-based tool matching. -/
def parse_with_nlp (env : Env) (reg : ToolRegistry) (command : String) : ParsedCommand :=
  if ¬ env.spacy then unknownCommand
  else
    let entities0 :=
      (env.ents command).foldl (fun d q => dictInsert d (pyLower q.1) (.str q.2)) []
    let entities := dictUpdate entities0 (extract_common_entities command)
    let ia := determine_intent (env.verbs command)
    let tool_name := find_best_tool_match reg ia.1 ia.2.1
    { intent := ia.1, action := ia.2.1, entities := entities, confidence := ia.2.2,
      tool_name := tool_name,
      parameters := some (infer_parameters reg entities tool_name) }

/-- Python's builtin `max` on two numbers: the second argument wins only when
strictly greater. -/
def pyMax (a b : ℚ) : ℚ := if a < b then b else a

/-- The keyword loop body of `_match_tool_names`: keyword containment scores a
fixed 0.6, competing strictly. -/
def toolNameKwStep (command : String) (t : Tool) (st2 : Option Tool × ℚ)
    (kw : String) : Option Tool × ℚ :=
  if pyContains command (pyLower kw) then
    (if mkRat 6 10 > st2.2 then (some t, mkRat 6 10) else st2)
  else st2

/-- The per-tool body of `_match_tool_names`. -/
def toolNameStep (env : Env) (command : String) (st : Option Tool × ℚ)
    (q : String × Tool) : Option Tool × ℚ :=
  let st1 :=
    if pyContains command (pyLower q.1) then
      (if mkRat 8 10 > st.2 then (some q.2, mkRat 8 10) else st)
    else st
  let st2 := q.2.metadata.keywords.foldl (toolNameKwStep command q.2) st1
  if env.fuzzy then
    let name_similarity : ℚ := mkRat (env.partRatioFn command (pyLower q.1)) 100
    let desc_similarity : ℚ :=
      mkRat (env.partRatioFn command (pyLower q.2.metadata.description)) 100
    let similarity := pyMax name_similarity desc_similarity
    if similarity > mkRat 7 10 ∧ similarity > st2.2 then (some q.2, similarity) else st2
  else st2

/-- `_match_tool_names`: scan every registered tool; name containment scores
0.8, keyword containment 0.6, and — when fuzzy matching is available — the
better of the partial-ratio similarities against name and description competes
above the 0.7 threshold.  Strictly-greater updates keep the earliest best. -/
def match_tool_names (env : Env) (reg : ToolRegistry) (command : String) : ParsedCommand :=
  let final := reg.tools.foldl (toolNameStep env command) (Option.none, 0)
  match final.1 with
  | some tool =>
    let entities := extract_common_entities command
    { intent := "execute_tool", action := "run", entities := entities,
      confidence := final.2, tool_name := some tool.metadata.name,
      parameters := some (infer_parameters reg entities (some tool.metadata.name)) }
  | Option.none => unknownCommand

/-- The fixed example-command list of `_suggest_alternatives`. -/
def commonCommands : List String :=
  ["open blender", "take screenshot", "list files", "search web",
   "copy files", "move files", "create zip", "monitor system"]

/-- Insert into a score-descending list, after any equal scores (stability). -/
def insertDesc (x : String × ℕ) : List (String × ℕ) → List (String × ℕ)
  | [] => [x]
  | y :: ys => if y.2 < x.2 then x :: y :: ys else y :: insertDesc x ys

/-- Stable sort by score, highest first (insertion sort). -/
def sortDescBy : List (String × ℕ) → List (String × ℕ)
  | [] => []
  | x :: xs => insertDesc x (sortDescBy xs)

/-- Modelled from the external library `fuzzywuzzy.process.extract(query,
choices, limit)`: score every choice with the scorer (`WRatio` by default,
here the oracle `wratioFn`) and return the `limit` best, highest score first
(`heapq.nlargest` — a stable descending selection). -/
def pyExtract (env : Env) (query : String) (choices : List String) (limit : ℕ) :
    List (String × ℕ) :=
  (sortDescBy (choices.map (fun o => (o, env.wratioFn query o)))).take limit

theorem mem_insertDesc {x y : String × ℕ} {l : List (String × ℕ)} :
    x ∈ insertDesc y l ↔ x = y ∨ x ∈ l := by
  induction l with
  | nil => simp [insertDesc]
  | cons z zs ih =>
    unfold insertDesc
    by_cases hc : z.2 < y.2
    · rw [if_pos hc]
      simp
    · rw [if_neg hc]
      simp only [List.mem_cons, ih]
      tauto

theorem mem_sortDescBy {x : String × ℕ} {l : List (String × ℕ)} :
    x ∈ sortDescBy l ↔ x ∈ l := by
  induction l with
  | nil => simp [sortDescBy]
  | cons z zs ih =>
    unfold sortDescBy
    rw [mem_insertDesc]
    simp only [List.mem_cons, ih]

/-- `_suggest_alternatives`: with fuzzy matching available, the top three of
tool names + fixed example commands, filtered to scores above 60; otherwise no
suggestions. -/
def suggest_alternatives (env : Env) (reg : ToolRegistry) (command : String) :
    List String :=
  if env.fuzzy then
    let tool_names := reg.tools.map (fun p => p.1)
    let all_options := tool_names ++ commonCommands
    let extracted := pyExtract env command all_options 3
    (extracted.filter (fun m => 60 < m.2)).map (fun m => m.1)
  else []

/-- Builtin pattern 1: `open {app}`. -/
def bpOpen : CommandPattern :=
  { pattern := "open {app}", intent := "application", action := "launch",
    tool_name := "open_application", parameter_mapping := [("app", "app_name")],
    examples := ["open blender", "open chrome", "open vscode"] }

/-- Builtin pattern 2: `start {app}`. -/
def bpStart : CommandPattern :=
  { pattern := "start {app}", intent := "application", action := "launch",
    tool_name := "open_application", parameter_mapping := [("app", "app_name")],
    examples := ["start blender", "start browser"] }

/-- Builtin pattern 3: `copy {file} to {path}`. -/
def bpCopy : CommandPattern :=
  { pattern := "copy {file} to {path}", intent := "file", action := "copy",
    tool_name := "copy_files",
    parameter_mapping := [("file", "source_path"), ("path", "destination_path")],
    examples := ["copy document.txt to backup folder"] }

/-- Builtin pattern 4: `move {file} to {path}`. -/
def bpMove : CommandPattern :=
  { pattern := "move {file} to {path}", intent := "file", action := "move",
    tool_name := "move_files",
    parameter_mapping := [("file", "source_path"), ("path", "destination_path")],
    examples := ["move photos to pictures folder"] }

/-- Builtin pattern 5: `take screenshot`. -/
def bpShot : CommandPattern :=
  { pattern := "take screenshot", intent := "system", action := "screenshot",
    tool_name := "take_screenshot", parameter_mapping := [],
    examples := ["take screenshot", "capture screen"] }

/-- Builtin pattern 6: `check system`. -/
def bpCheck : CommandPattern :=
  { pattern := "check system", intent := "system", action := "monitor",
    tool_name := "get_system_information", parameter_mapping := [],
    examples := ["check system status", "monitor system"] }

/-- Builtin pattern 7: `search for {text}`. -/
def bpSearch : CommandPattern :=
  { pattern := "search for {text}", intent := "web", action := "search",
    tool_name := "search_web", parameter_mapping := [("text", "query")],
    examples := ["search for python tutorials"] }

/-- Builtin pattern 8: `browse {text}`. -/
def bpBrowse : CommandPattern :=
  { pattern := "browse {text}", intent := "web", action := "navigate",
    tool_name := "navigate_to_website", parameter_mapping := [("text", "url")],
    examples := ["browse github.com"] }

/-- `_load_builtin_patterns`: the eight builtin command patterns, in source
order. -/
def builtin_patterns : List CommandPattern :=
  [bpOpen, bpStart, bpCopy, bpMove, bpShot, bpCheck, bpSearch, bpBrowse]

/-- The parser state that `parse_command` consults: the loaded patterns and the
global tool registry. -/
structure ParserState : Type where
  patterns : List CommandPattern := builtin_patterns
  registry : ToolRegistry := {}

/-- The tail of `parse_command` after the pattern stage and the optional NLP
stage: tool-name matching, `max`-selection and the below-0.3 fallback. -/
def parse_command_tail (env : Env) (st : ParserState) (command : String)
    (pattern_result : ParsedCommand) : ParsedCommand :=
  let tool_result := match_tool_names env st.registry command
  if tool_result.confidence > pattern_result.confidence then tool_result
  else
    -- max([pattern_result, tool_result]) returns the first maximum
    let best_result :=
      if tool_result.confidence > pattern_result.confidence then tool_result
      else pattern_result
    if best_result.confidence < mkRat 3 10 then
      { intent := "unknown", action := "help",
        entities := [("original_command", .str command)], confidence := 0,
        alternatives := some (suggest_alternatives env st.registry command) }
    else best_result

/-- `parse_command` (command_parser.py lines 88–141). -/
def parse_command (env : Env) (st : ParserState) (command0 : String) : ParsedCommand :=
  let command := pyNormalize command0
  if command = "" then unknownCommand
  else
    let pattern_result := match_patterns env st.patterns command
    if pattern_result.confidence > mkRat 7 10 then pattern_result
    else if env.spacy then
      let nlp_result := parse_with_nlp env st.registry command
      if nlp_result.confidence > pattern_result.confidence then nlp_result
      else parse_command_tail env st command pattern_result
    else parse_command_tail env st command pattern_result

/-- `get_command_history`: `self.command_history[-limit:]` for a non-negative
`limit` (Python's `-0` is `0`, so `limit = 0` slices the whole list). -/
def get_command_history (history : List ParsedCommand) (limit : ℕ) : List ParsedCommand :=
  if limit = 0 then history else history.drop (history.length - limit)

/-- `remember_command`: append, then trim to the last 50 when the length
exceeds 100. -/
def remember_command (history : List ParsedCommand) (pc : ParsedCommand) :
    List ParsedCommand :=
  let h2 := history ++ [pc]
  if 100 < h2.length then h2.drop (h2.length - 50) else h2

/-! ## plugin_manager.py: discovery and reload

A source unit models one Python file: loading it either fails as a whole
(`exec_module` raising) or yields the list of concrete `BaseTool` subclasses it
defines, each of which either instantiates to a tool or raises from its
constructor.  The synthetic unique module name that `_load_tools_from_file`
builds (`desktop_mcp_plugin_<stem>_<id>`) is carried as `moduleName` and
stamped on each instantiated tool's class (`__module__`), which is what
`reload_plugin` later matches on. -/

structure SourceUnit : Type where
  path : String
  moduleName : String
  load : Except String (List (Except String Tool))

/-- Ordered association-list insert (Python dict assignment). -/
def assocInsert {β : Type} (d : List (String × β)) (k : String) (v : β) :
    List (String × β) :=
  if d.any (fun p => p.1 = k) then
    d.map (fun p => if p.1 = k then (k, v) else p)
  else
    d ++ [(k, v)]

/-- One step of the instantiation loop of `_load_tools_from_file`: a class
whose constructor succeeds is stamped with the unit's module name and
registered; one whose constructor raises is skipped (the failure is only
logged). -/
def loadClassStep (mname : String) (acc : List String × ToolRegistry)
    (c : Except String Tool) : List String × ToolRegistry :=
  match c with
  | .ok t =>
    let t2 : Tool := { t with module := mname }
    (acc.1 ++ [t2.metadata.name], acc.2.register t2)
  | .error _ => acc

/-- `_load_tools_from_file` restricted to its effect on the registry: register
every class that instantiates, skipping (only logging) the ones whose
constructor raises; a module-level failure raises instead.  Returns the names
of the tools loaded, in order. -/
def load_tools_from_file (reg : ToolRegistry) (u : SourceUnit) :
    Except String (List String × ToolRegistry) :=
  match u.load with
  | .error e => .error e
  | .ok classes => .ok (classes.foldl (loadClassStep u.moduleName) ([], reg))

/-- The plugin manager's state: the (global) registry and the
`loaded_modules` bookkeeping (file path → synthetic module name). -/
structure PluginManager : Type where
  registry : ToolRegistry := {}
  loaded_modules : List (String × String) := []

/-- `_load_tools_from_file` at manager level: on success it also records the
unit in `loaded_modules`. -/
def pmLoadFile (pm : PluginManager) (u : SourceUnit) :
    Except String (List String × PluginManager) :=
  match load_tools_from_file pm.registry u with
  | .error e => .error e
  | .ok r =>
    .ok (r.1, { registry := r.2,
                loaded_modules := assocInsert pm.loaded_modules u.path u.moduleName })

/-- The discovery result of `_load_tools_from_directory`. -/
structure DirResult : Type where
  loaded : ℕ := 0
  tools : List String := []
  errors : List String := []
deriving Repr

/-- `_load_tools_from_directory`: load every unit, collecting a unit-level
failure into the error list and continuing with the next unit. -/
def load_tools_from_directory (pm : PluginManager) (units : List SourceUnit) :
    DirResult × PluginManager :=
  units.foldl
    (fun acc u =>
      match pmLoadFile acc.2 u with
      | .ok r =>
        ({ loaded := acc.1.loaded + r.1.length, tools := acc.1.tools ++ r.1,
           errors := acc.1.errors }, r.2)
      | .error e =>
        ({ acc.1 with
           errors := acc.1.errors ++ ["Failed to load tools from " ++ u.path ++ ": " ++ e] },
         acc.2))
    ({}, pm)

/-- The registry mutation of `reload_plugin`'s removal phase: delete from the
primary mapping every tool whose class came from the given module.  (The
category index is not touched.) -/
def removeModuleTools (reg : ToolRegistry) (m : String) : ToolRegistry :=
  { reg with tools := reg.tools.filter (fun p => ¬ p.2.module = m) }

structure ReloadResult : Type where
  success : Bool
  tools_reloaded : ℕ
  error : Option String
deriving Repr

/-- The removal phase of `reload_plugin`: when the path was loaded before, drop
its tools from the primary mapping (by module match) and its `loaded_modules`
entry; otherwise leave the manager unchanged. -/
def reloadPrep (pm : PluginManager) (u : SourceUnit) : PluginManager :=
  match pm.loaded_modules.find? (fun p => p.1 = u.path) with
  | some p =>
    { registry := removeModuleTools pm.registry p.2,
      loaded_modules := pm.loaded_modules.filter (fun q => ¬ q.1 = u.path) }
  | Option.none => pm

/-- `reload_plugin` (file case): drop the unit's previously registered tools
and its `loaded_modules` entry, then re-run the load algorithm on the (possibly
changed) source. -/
def reload_plugin (pm : PluginManager) (u : SourceUnit) : ReloadResult × PluginManager :=
  match pmLoadFile (reloadPrep pm u) u with
  | .ok r => ({ success := true, tools_reloaded := r.1.length, error := Option.none }, r.2)
  | .error e =>
    ({ success := false, tools_reloaded := 0,
       error := some ("Failed to reload plugin " ++ u.path ++ ": " ++ e) }, reloadPrep pm u)

/-- A registry-affecting operation: a direct registration or a plugin reload. -/
inductive RegOp : Type where
  | register (t : Tool)
  | reload (u : SourceUnit)

def applyOp (pm : PluginManager) : RegOp → PluginManager
  | .register t => { pm with registry := pm.registry.register t }
  | .reload u => (reload_plugin pm u).2

def applyOps (ops : List RegOp) : PluginManager :=
  ops.foldl applyOp {}

/-! ## Concrete fixtures used by witnesses and counterexamples -/

/-- An environment with neither optional library installed (the source's
fallback when the `import spacy` / `import fuzzywuzzy` attempts fail). -/
def envNone : Env where
  spacy := false
  fuzzy := false
  ratioFn := fun _ _ => 0
  partRatioFn := fun _ _ => 0
  wratioFn := fun _ _ => 0
  ents := fun _ => []
  verbs := fun _ => []

/-- A trivial validation environment. -/
def venv0 : ValEnv where
  reMatch := fun _ _ => true
  isFile := fun _ => true
  isDir := fun _ => true

/-- The screenshot tool of the builtin pattern table, with the metadata the
claims exercise. -/
def screenshotTool : Tool where
  metadata := { name := "take_screenshot", description := "capture the screen",
                category := .SYSTEM_CONTROL }
  execute := fun _ => .ok { success := true, message := "ok" }

/-! ## Claim C2 -/

theorem mkRat_le_of_le_90 (n : ℕ) (h : n ≤ 90) : mkRat n 100 ≤ mkRat 9 10 := by
  rw [Rat.mkRat_eq_div, Rat.mkRat_eq_div]
  have h2 : (n : ℚ) ≤ 90 := by exact_mod_cast h
  push_cast
  rw [div_le_div_iff₀ (by norm_num : (0:ℚ) < 100) (by norm_num : (0:ℚ) < 10)]
  linarith

/-- The fuzzy example loop leaves the state unchanged when no example's
similarity exceeds the best confidence so far. -/
theorem patternFuzzyStep_fold_le (env : Env) (pat : CommandPattern) (command : String) :
    ∀ (exs : List String) (st : Option ParsedCommand × ℚ),
      (∀ ex ∈ exs, mkRat (env.ratioFn command (pyLower ex)) 100 ≤ st.2) →
      exs.foldl (patternFuzzyStep env pat command) st = st := by
  intro exs
  induction exs with
  | nil => intro st _; rfl
  | cons ex rest ih =>
    intro st hb
    simp only [List.foldl_cons]
    have hstep : patternFuzzyStep env pat command st ex = st := by
      unfold patternFuzzyStep
      rw [if_neg]
      intro hcon
      exact absurd hcon.2 (not_lt.mpr (hb ex (by simp)))
    rw [hstep]
    exact ih st (fun e he => hb e (by simp [he]))

/-- A pattern whose regex misses and whose examples stay below the current
best leaves the pattern-stage state unchanged. -/
theorem patternStep_noop (env : Env) (command : String) (st : Option ParsedCommand × ℚ)
    (pat : CommandPattern)
    (hre : reSearch (templateElems pat.pattern) command.data = Option.none)
    (hb : ∀ ex ∈ pat.examples, mkRat (env.ratioFn command (pyLower ex)) 100 ≤ st.2) :
    patternStep env command st pat = st := by
  unfold patternStep
  simp only [hre]
  by_cases hf : env.fuzzy = true
  · rw [if_pos hf]
    exact patternFuzzyStep_fold_le env pat command pat.examples st hb
  · rw [if_neg hf]

/-- A pattern whose regex hits while the best confidence is below 0.9 installs
its candidate at confidence 0.9; examples bounded by 0.9 cannot displace it. -/
theorem patternStep_hit (env : Env) (command : String) (st : Option ParsedCommand × ℚ)
    (pat : CommandPattern) (gs : List (List Char))
    (hre : reSearch (templateElems pat.pattern) command.data = some gs)
    (hconf : mkRat 9 10 > st.2)
    (hb : ∀ ex ∈ pat.examples, mkRat (env.ratioFn command (pyLower ex)) 100 ≤ mkRat 9 10) :
    patternStep env command st pat =
      (some { intent := pat.intent, action := pat.action,
              entities := extract_entities_from_match gs pat,
              confidence := mkRat 9 10, tool_name := some pat.tool_name,
              parameters := some (map_parameters (extract_entities_from_match gs pat)
                pat.parameter_mapping) },
       mkRat 9 10) := by
  unfold patternStep
  simp only [hre]
  rw [if_pos hconf]
  by_cases hf : env.fuzzy = true
  · rw [if_pos hf]
    exact patternFuzzyStep_fold_le env pat command pat.examples _ hb
  · rw [if_neg hf]

/-- **C2**: `parse_command "open calculator"` resolves to `open_application`
with `{"app_name": "calculator"}` at confidence 0.9 (= `mkRat 9 10`), for any
registry and any environment whose `fuzz.ratio` scores of the builtin pattern
examples against the input are at most 90 — as the real library's are, no
example coming close to similarity 0.9.  With the pattern stage at 0.9 the
parser returns before consulting the NLP stage or the tool registry. -/
theorem c2_resolve_open_calculator (env : Env) (reg : ToolRegistry)
    (hr : ∀ ex ∈ ["open blender", "open chrome", "open vscode", "start blender",
        "start browser", "copy document.txt to backup folder",
        "move photos to pictures folder", "take screenshot", "capture screen",
        "check system status", "monitor system", "search for python tutorials",
        "browse github.com"],
      env.ratioFn "open calculator" ex ≤ 90) :
    parse_command env { patterns := builtin_patterns, registry := reg } "open calculator" =
      { intent := "application", action := "launch",
        entities := [("app", PyVal.str "calculator")], confidence := mkRat 9 10,
        tool_name := some "open_application",
        parameters := some [("app_name", PyVal.str "calculator")] } := by
  have hb1 : ∀ ex ∈ ["open blender", "open chrome", "open vscode"],
      mkRat (env.ratioFn "open calculator" (pyLower ex)) 100 ≤ mkRat 9 10 := by
    intro ex he
    fin_cases he <;> exact mkRat_le_of_le_90 _ (hr _ (by decide))
  have hb2 : ∀ ex ∈ ["start blender", "start browser"],
      mkRat (env.ratioFn "open calculator" (pyLower ex)) 100 ≤ mkRat 9 10 := by
    intro ex he
    fin_cases he <;> exact mkRat_le_of_le_90 _ (hr _ (by decide))
  have hb3 : ∀ ex ∈ ["copy document.txt to backup folder"],
      mkRat (env.ratioFn "open calculator" (pyLower ex)) 100 ≤ mkRat 9 10 := by
    intro ex he
    fin_cases he <;> exact mkRat_le_of_le_90 _ (hr _ (by decide))
  have hb4 : ∀ ex ∈ ["move photos to pictures folder"],
      mkRat (env.ratioFn "open calculator" (pyLower ex)) 100 ≤ mkRat 9 10 := by
    intro ex he
    fin_cases he <;> exact mkRat_le_of_le_90 _ (hr _ (by decide))
  have hb5 : ∀ ex ∈ ["take screenshot", "capture screen"],
      mkRat (env.ratioFn "open calculator" (pyLower ex)) 100 ≤ mkRat 9 10 := by
    intro ex he
    fin_cases he <;> exact mkRat_le_of_le_90 _ (hr _ (by decide))
  have hb6 : ∀ ex ∈ ["check system status", "monitor system"],
      mkRat (env.ratioFn "open calculator" (pyLower ex)) 100 ≤ mkRat 9 10 := by
    intro ex he
    fin_cases he <;> exact mkRat_le_of_le_90 _ (hr _ (by decide))
  have hb7 : ∀ ex ∈ ["search for python tutorials"],
      mkRat (env.ratioFn "open calculator" (pyLower ex)) 100 ≤ mkRat 9 10 := by
    intro ex he
    fin_cases he <;> exact mkRat_le_of_le_90 _ (hr _ (by decide))
  have hb8 : ∀ ex ∈ ["browse github.com"],
      mkRat (env.ratioFn "open calculator" (pyLower ex)) 100 ≤ mkRat 9 10 := by
    intro ex he
    fin_cases he <;> exact mkRat_le_of_le_90 _ (hr _ (by decide))
  have hp : match_patterns env builtin_patterns "open calculator" =
      { intent := "application", action := "launch",
        entities := [("app", PyVal.str "calculator")], confidence := mkRat 9 10,
        tool_name := some "open_application",
        parameters := some [("app_name", PyVal.str "calculator")] } := by
    unfold match_patterns builtin_patterns
    simp only [List.foldl_cons, List.foldl_nil]
    rw [patternStep_hit env "open calculator" (Option.none, 0) bpOpen ["calculator".data]
        rfl (by decide) hb1]
    rw [patternStep_noop env "open calculator" _ bpStart rfl (by exact hb2)]
    rw [patternStep_noop env "open calculator" _ bpCopy rfl (by exact hb3)]
    rw [patternStep_noop env "open calculator" _ bpMove rfl (by exact hb4)]
    rw [patternStep_noop env "open calculator" _ bpShot rfl (by exact hb5)]
    rw [patternStep_noop env "open calculator" _ bpCheck rfl (by exact hb6)]
    rw [patternStep_noop env "open calculator" _ bpSearch rfl (by exact hb7)]
    rw [patternStep_noop env "open calculator" _ bpBrowse rfl (by exact hb8)]
    rfl
  have hnorm : pyNormalize "open calculator" = "open calculator" := by decide
  simp only [parse_command]
  rw [hnorm, if_neg (by decide : ¬ ("open calculator" : String) = "")]
  rw [hp]
  rw [if_pos (by decide : (mkRat 9 10 : ℚ) > mkRat 7 10)]

/-- Witness for C2: an environment whose ratio oracle scores every comparison
39, satisfying the bound of the theorem. -/
theorem c2_resolve_open_calculator_witness :
    parse_command { envNone with fuzzy := true, ratioFn := fun _ _ => 39 }
      { patterns := builtin_patterns, registry := {} } "open calculator" =
      { intent := "application", action := "launch",
        entities := [("app", PyVal.str "calculator")], confidence := mkRat 9 10,
        tool_name := some "open_application",
        parameters := some [("app_name", PyVal.str "calculator")] } :=
  c2_resolve_open_calculator { envNone with fuzzy := true, ratioFn := fun _ _ => 39 } {}
    (by intro ex he; exact (by decide : (39 : ℕ) ≤ 90))

/-! ## Claim C6 -/

/-- The pattern-stage fold invariant: the best candidate (if any) carries the
recorded confidence, and the recorded confidence is 0 or above 0.8. -/
def PatInv (st : Option ParsedCommand × ℚ) : Prop :=
  (match st.1 with
   | some pc => pc.confidence = st.2
   | Option.none => st.2 = 0) ∧
  (st.2 = 0 ∨ mkRat 8 10 < st.2)

theorem patternFuzzyStep_inv {env : Env} {pat : CommandPattern} {command : String}
    {st : Option ParsedCommand × ℚ} (h : PatInv st) (ex : String) :
    PatInv (patternFuzzyStep env pat command st ex) := by
  unfold patternFuzzyStep
  by_cases hc : mkRat (env.ratioFn command (pyLower ex)) 100 > mkRat 8 10 ∧
      mkRat (env.ratioFn command (pyLower ex)) 100 > st.2
  · rw [if_pos hc]
    exact ⟨rfl, Or.inr hc.1⟩
  · rw [if_neg hc]
    exact h

theorem patInv_regex_update (st : Option ParsedCommand × ℚ) (h : PatInv st)
    (cand : ParsedCommand) (hcand : cand.confidence = mkRat 9 10) :
    PatInv (if mkRat 9 10 > st.2 then (some cand, mkRat 9 10) else st) := by
  by_cases hc : mkRat 9 10 > st.2
  · rw [if_pos hc]
    exact ⟨hcand, Or.inr (show mkRat 8 10 < mkRat 9 10 by decide)⟩
  · rw [if_neg hc]
    exact h

theorem patternStep_inv {env : Env} {command : String} {st : Option ParsedCommand × ℚ}
    (h : PatInv st) (pat : CommandPattern) : PatInv (patternStep env command st pat) := by
  unfold patternStep
  have h1 : PatInv (match reSearch (templateElems pat.pattern) command.data with
      | some gs =>
        if mkRat 9 10 > st.2 then
          (some { intent := pat.intent, action := pat.action,
                  entities := extract_entities_from_match gs pat,
                  confidence := mkRat 9 10, tool_name := some pat.tool_name,
                  parameters := some (map_parameters (extract_entities_from_match gs pat)
                    pat.parameter_mapping) },
           mkRat 9 10)
        else st
      | Option.none => st) := by
    cases reSearch (templateElems pat.pattern) command.data with
    | none => exact h
    | some gs => exact patInv_regex_update st h _ rfl
  by_cases hf : env.fuzzy = true
  · rw [if_pos hf]
    have hfold : ∀ (exs : List String) (st2 : Option ParsedCommand × ℚ), PatInv st2 →
        PatInv (exs.foldl (patternFuzzyStep env pat command) st2) := by
      intro exs
      induction exs with
      | nil => intro st2 h2; exact h2
      | cons e rest ih =>
        intro st2 h2
        exact ih _ (patternFuzzyStep_inv h2 e)
    exact hfold pat.examples _ h1
  · rw [if_neg hf]
    exact h1

/-- The pattern-stage confidence is either 0 or above 0.8 — in particular it is
never strictly between 0 and 0.3. -/
theorem match_patterns_conf_lattice (env : Env) (pats : List CommandPattern)
    (command : String) :
    (match_patterns env pats command).confidence = 0 ∨
    mkRat 8 10 < (match_patterns env pats command).confidence := by
  have hfold : ∀ (l : List CommandPattern) (st : Option ParsedCommand × ℚ), PatInv st →
      PatInv (l.foldl (patternStep env command) st) := by
    intro l
    induction l with
    | nil => intro st h; exact h
    | cons p rest ih =>
      intro st h
      exact ih _ (patternStep_inv h p)
  have h := hfold pats (Option.none, 0) ⟨rfl, Or.inl rfl⟩
  simp only [match_patterns]
  cases hfin : (pats.foldl (patternStep env command) (Option.none, 0)).1 with
  | none => exact Or.inl rfl
  | some pc =>
    obtain ⟨h1, h2⟩ := h
    rw [hfin] at h1
    show pc.confidence = 0 ∨ mkRat 8 10 < pc.confidence
    rw [h1]
    exact h2

/-- The tool-name-stage fold invariant: a recorded best tool implies a
confidence of at least 0.6. -/
def ToolInv (st : Option Tool × ℚ) : Prop :=
  (match st.1 with
   | some _ => mkRat 6 10 ≤ st.2
   | Option.none => st.2 = 0)

theorem toolNameStep_inv {env : Env} {command : String} {st : Option Tool × ℚ}
    (h : ToolInv st) (q : String × Tool) : ToolInv (toolNameStep env command st q) := by
  have hST1 : ToolInv (if pyContains command (pyLower q.1) then
      (if mkRat 8 10 > st.2 then (some q.2, mkRat 8 10) else st) else st) := by
    split
    · split
      · exact (by decide : mkRat 6 10 ≤ mkRat 8 10)
      · exact h
    · exact h
  have hKW : ∀ (kws : List String) (st2 : Option Tool × ℚ), ToolInv st2 →
      ToolInv (kws.foldl (toolNameKwStep command q.2) st2) := by
    intro kws
    induction kws with
    | nil => intro st2 h2; exact h2
    | cons kw rest ih =>
      intro st2 h2
      refine ih _ ?_
      unfold toolNameKwStep
      split
      · split
        · exact le_refl _
        · exact h2
      · exact h2
  simp only [toolNameStep]
  by_cases hf : env.fuzzy = true
  · rw [if_pos hf]
    set sim := pyMax (mkRat (env.partRatioFn command (pyLower q.1)) 100)
      (mkRat (env.partRatioFn command (pyLower q.2.metadata.description)) 100) with hsim
    set kwState := q.2.metadata.keywords.foldl (toolNameKwStep command q.2)
      (if pyContains command (pyLower q.1) then
        (if mkRat 8 10 > st.2 then (some q.2, mkRat 8 10) else st) else st) with hkwst
    by_cases hc : sim > mkRat 7 10 ∧ sim > kwState.2
    · rw [if_pos hc]
      show mkRat 6 10 ≤ sim
      calc mkRat 6 10 ≤ mkRat 7 10 := by decide
        _ ≤ sim := le_of_lt hc.1
    · rw [if_neg hc]
      exact hKW q.2.metadata.keywords _ hST1
  · rw [if_neg hf]
    exact hKW q.2.metadata.keywords _ hST1

/-- The tool-name-stage confidence is either 0 or at least 0.6 — never
strictly between 0 and 0.3. -/
theorem match_tool_names_conf_lattice (env : Env) (reg : ToolRegistry)
    (command : String) :
    (match_tool_names env reg command).confidence = 0 ∨
    mkRat 6 10 ≤ (match_tool_names env reg command).confidence := by
  have hfold : ∀ (l : List (String × Tool)) (st : Option Tool × ℚ), ToolInv st →
      ToolInv (l.foldl (toolNameStep env command) st) := by
    intro l
    induction l with
    | nil => intro st h; exact h
    | cons p rest ih =>
      intro st h
      exact ih _ (toolNameStep_inv h p)
  have h := hfold reg.tools (Option.none, 0) rfl
  simp only [match_tool_names]
  cases hfin : (reg.tools.foldl (toolNameStep env command) (Option.none, 0)).1 with
  | none => exact Or.inl rfl
  | some tool =>
    unfold ToolInv at h
    rw [hfin] at h
    exact Or.inr h

/-- The NLP-stage confidence is 0 or exactly 0.8. -/
theorem parse_with_nlp_conf_lattice (env : Env) (reg : ToolRegistry)
    (command : String) :
    (parse_with_nlp env reg command).confidence = 0 ∨
    (parse_with_nlp env reg command).confidence = mkRat 8 10 := by
  unfold parse_with_nlp
  by_cases hs : ¬ env.spacy = true
  · rw [if_pos hs]
    exact Or.inl rfl
  · rw [if_neg hs]
    simp only
    unfold determine_intent
    cases (env.verbs command).findSome?
        (fun v => (intentMapping.find? (fun q => q.1 = v)).map (fun q => q.2)) with
    | none => exact Or.inl rfl
    | some q => exact Or.inr rfl

/-- **C6 (amended)**: whenever every stage's candidate stays below confidence
0.3, `parse_command` returns intent `unknown`, action `help`, confidence 0.0,
and alternatives drawn from registered tool names plus the fixed example
commands; the list holds at most 3 entries, each scoring above 60 with the
fuzzy scorer (and is empty without fuzzy matching) — but it holds only the
top-3 extracted candidates passing the threshold, not necessarily every
passing option (see the counterexample). -/
theorem c6_low_confidence_fallback (env : Env) (st : ParserState) (s : String)
    (hne : ¬ pyNormalize s = "")
    (hp : (match_patterns env st.patterns (pyNormalize s)).confidence < mkRat 3 10)
    (ht : (match_tool_names env st.registry (pyNormalize s)).confidence < mkRat 3 10)
    (hn : (parse_with_nlp env st.registry (pyNormalize s)).confidence < mkRat 3 10) :
    parse_command env st s =
      { intent := "unknown", action := "help",
        entities := [("original_command", PyVal.str (pyNormalize s))], confidence := 0,
        alternatives := some (suggest_alternatives env st.registry (pyNormalize s)) } ∧
    (suggest_alternatives env st.registry (pyNormalize s)).length ≤ 3 ∧
    (∀ o ∈ suggest_alternatives env st.registry (pyNormalize s),
      o ∈ (st.registry.tools.map (fun p => p.1) ++ commonCommands) ∧
      60 < env.wratioFn (pyNormalize s) o) ∧
    (env.fuzzy = false → suggest_alternatives env st.registry (pyNormalize s) = []) := by
  have hp0 : (match_patterns env st.patterns (pyNormalize s)).confidence = 0 := by
    rcases match_patterns_conf_lattice env st.patterns (pyNormalize s) with h | h
    · exact h
    · exact absurd (lt_trans h hp) (by decide)
  have ht0 : (match_tool_names env st.registry (pyNormalize s)).confidence = 0 := by
    rcases match_tool_names_conf_lattice env st.registry (pyNormalize s) with h | h
    · exact h
    · exact absurd (lt_of_le_of_lt h ht) (by decide)
  have hn0 : (parse_with_nlp env st.registry (pyNormalize s)).confidence = 0 := by
    rcases parse_with_nlp_conf_lattice env st.registry (pyNormalize s) with h | h
    · exact h
    · rw [h] at hn
      exact absurd hn (by decide)
  have htail : parse_command_tail env st (pyNormalize s)
      (match_patterns env st.patterns (pyNormalize s)) =
      { intent := "unknown", action := "help",
        entities := [("original_command", PyVal.str (pyNormalize s))], confidence := 0,
        alternatives := some (suggest_alternatives env st.registry (pyNormalize s)) } := by
    simp only [parse_command_tail]
    rw [ht0, hp0]
    rw [if_neg (by decide : ¬ (0:ℚ) > 0), if_neg (by decide : ¬ (0:ℚ) > 0)]
    rw [hp0, if_pos (by decide : (0:ℚ) < mkRat 3 10)]
  refine ⟨?_, ?_, ?_, ?_⟩
  · simp only [parse_command]
    rw [if_neg hne]
    rw [if_neg (by rw [hp0]; decide :
      ¬ (match_patterns env st.patterns (pyNormalize s)).confidence > mkRat 7 10)]
    by_cases hsp : env.spacy = true
    · rw [if_pos hsp]
      rw [if_neg (by rw [hn0, hp0]; decide :
        ¬ (parse_with_nlp env st.registry (pyNormalize s)).confidence >
          (match_patterns env st.patterns (pyNormalize s)).confidence)]
      exact htail
    · rw [if_neg hsp]
      exact htail
  · simp only [suggest_alternatives]
    by_cases hf : env.fuzzy = true
    · rw [if_pos hf]
      calc (((pyExtract env (pyNormalize s)
              (st.registry.tools.map (fun p => p.1) ++ commonCommands) 3).filter
              (fun m => 60 < m.2)).map (fun m => m.1)).length
          = ((pyExtract env (pyNormalize s)
              (st.registry.tools.map (fun p => p.1) ++ commonCommands) 3).filter
              (fun m => 60 < m.2)).length := List.length_map _ _
        _ ≤ (pyExtract env (pyNormalize s)
              (st.registry.tools.map (fun p => p.1) ++ commonCommands) 3).length :=
            List.length_filter_le _ _
        _ ≤ 3 := by
            simp only [pyExtract]
            exact List.length_take_le _ _
    · rw [if_neg hf]
      exact Nat.zero_le 3
  · intro o ho
    simp only [suggest_alternatives] at ho
    by_cases hf : env.fuzzy = true
    · rw [if_pos hf] at ho
      obtain ⟨m, hm, hmo⟩ := List.mem_map.mp ho
      obtain ⟨hm1, hm2⟩ := List.mem_filter.mp hm
      have hm3 : m ∈ sortDescBy ((st.registry.tools.map (fun p => p.1) ++ commonCommands).map
          (fun o2 => (o2, env.wratioFn (pyNormalize s) o2))) := by
        simp only [pyExtract] at hm1
        exact List.mem_of_mem_take hm1
      have hm4 := mem_sortDescBy.mp hm3
      obtain ⟨o2, ho2, heq⟩ := List.mem_map.mp hm4
      have ho2o : o2 = o := by
        rw [← hmo, ← heq]
      subst ho2o
      constructor
      · exact ho2
      · have : m.2 = env.wratioFn (pyNormalize s) o2 := by rw [← heq]
        rw [this] at hm2
        simpa using hm2
    · rw [if_neg hf] at ho
      exact absurd ho (by simp)
  · intro hf
    simp only [suggest_alternatives]
    rw [if_neg (by rw [hf]; exact Bool.false_ne_true)]

/-- Witness for C6 (amended): `"zzzqqqnonsense"` with no optional libraries and
an empty registry hits the fallback with an empty alternatives list. -/
theorem c6_low_confidence_fallback_witness :
    parse_command envNone { registry := {} } "zzzqqqnonsense" =
      { intent := "unknown", action := "help",
        entities := [("original_command", PyVal.str "zzzqqqnonsense")], confidence := 0,
        alternatives := some [] } := by
  have h := c6_low_confidence_fallback envNone { registry := {} } "zzzqqqnonsense"
    (by decide) (by decide) (by decide) (by decide)
  rw [h.1]
  rfl

/-- A tool named `nm` with an unrelated description, for the C6 registry. -/
def c6Tool (nm : String) : Tool where
  metadata := { name := nm, description := "zzz", category := .UTILITIES }
  execute := fun _ => .ok { success := true, message := "ok" }

/-- Four registered tools whose names are token reorderings of the input. -/
def c6Registry : ToolRegistry :=
  ((((ToolRegistry.register {} (c6Tool "beta alpha q1")).register
      (c6Tool "beta alpha q2")).register
      (c6Tool "beta alpha q3")).register
      (c6Tool "beta alpha q4"))

/-- An environment with `fuzzywuzzy` available whose oracles model the real
library on the comparisons this example makes: `fuzz.ratio` and
`fuzz.partial_ratio` stay at sub-threshold values (0.3 / 0.5 — reordered
tokens score low on those), while the `WRatio` scorer used by
`process.extract` rates all four reordered tool names above 80 via its
token-sort heuristic. -/
def c6Env : Env where
  spacy := false
  fuzzy := true
  ratioFn := fun _ _ => 30
  partRatioFn := fun _ _ => 50
  wratioFn := fun _ o =>
    if o = "beta alpha q1" then 86
    else if o = "beta alpha q2" then 85
    else if o = "beta alpha q3" then 84
    else if o = "beta alpha q4" then 83
    else 25
  ents := fun _ => []
  verbs := fun _ => []

/-- **C6 counterexample**: on `"alpha beta"` no stage reaches confidence 0.3
and the fallback fires, but with four options scoring above the 0.6 threshold
the `limit = 3` of `process.extract` keeps the fourth (`beta alpha q4`,
score 83) out of the alternatives — so the list does not contain exactly the
options whose similarity exceeds the threshold, refuting the claim as
stated. -/
theorem c6_alternatives_counterexample :
    parse_command c6Env { registry := c6Registry } "alpha beta" =
      { intent := "unknown", action := "help",
        entities := [("original_command", PyVal.str "alpha beta")], confidence := 0,
        alternatives := some ["beta alpha q1", "beta alpha q2", "beta alpha q3"] } ∧
    "beta alpha q4" ∈ (c6Registry.tools.map (fun p => p.1) ++ commonCommands) ∧
    60 < c6Env.wratioFn "alpha beta" "beta alpha q4" ∧
    "beta alpha q4" ∉ (["beta alpha q1", "beta alpha q2", "beta alpha q3"] : List String) := by
  refine ⟨rfl, ?_, by decide, by decide⟩
  show "beta alpha q4" ∈ ["beta alpha q1", "beta alpha q2", "beta alpha q3",
    "beta alpha q4"] ++ commonCommands
  simp

end DesktopMCP

namespace DesktopMCP

/-! ## Claim C9 -/

/-- **C9**: a parameter schema with `required = False` accepts the value `None`
unconditionally — the type, range, choices, pattern and path/URL/email checks
are all skipped, for every parameter and every validation environment. -/
theorem c9_optional_accepts_none (venv : ValEnv) (p : ToolParameter)
    (h : p.required = false) :
    ToolParameter.validate venv p .none = (true, Option.none) := by
  unfold ToolParameter.validate
  rw [h]
  simp

/-- Witness for C9: a fully constrained optional parameter (type, range,
choices, pattern all set) still validates `None`. -/
theorem c9_optional_accepts_none_witness :
    ({ name := "level", type := .INTEGER, description := "d", required := false,
       choices := some [.int 1, .int 2], min_value := some 5, max_value := some 6,
       pattern := some "^x$" } : ToolParameter).required = false ∧
    ToolParameter.validate venv0
      { name := "level", type := .INTEGER, description := "d", required := false,
        choices := some [.int 1, .int 2], min_value := some 5, max_value := some 6,
        pattern := some "^x$" } .none = (true, Option.none) :=
  ⟨rfl, c9_optional_accepts_none venv0 _ rfl⟩

/-! ## Claim C10 -/

/-- **C10**: for `limit ≥ 1`, `get_command_history` returns the most recent
`min limit length` entries in oldest-first order (the reversal of the first
`limit` of the reversed history, a suffix of the history); for `limit = 0` the
Python slice `[-0:]` is `[0:]`, so the entire history is returned. -/
theorem c10_history_slice (h : List ParsedCommand) (limit : ℕ) :
    (1 ≤ limit →
      get_command_history h limit = ((h.reverse.take limit)).reverse ∧
      (get_command_history h limit).length = min limit h.length ∧
      get_command_history h limit <:+ h) ∧
    get_command_history h 0 = h := by
  constructor
  · intro hl
    have hne : limit ≠ 0 := by omega
    have heq : get_command_history h limit = h.drop (h.length - limit) := by
      unfold get_command_history
      rw [if_neg hne]
    have hrev : (h.reverse.take limit).reverse = h.drop (h.length - limit) := by
      rw [List.reverse_take, List.reverse_reverse, List.length_reverse]
    refine ⟨by rw [heq, hrev], ?_, ?_⟩
    · rw [heq, List.length_drop]
      omega
    · rw [heq]
      exact List.drop_suffix _ _
  · unfold get_command_history
    rw [if_pos rfl]

/-- Witness for C10 at a three-element history and `limit = 2`. -/
theorem c10_history_slice_witness :
    get_command_history
      [{ unknownCommand with intent := "a" }, { unknownCommand with intent := "b" },
       { unknownCommand with intent := "c" }] 2 =
      [{ unknownCommand with intent := "b" }, { unknownCommand with intent := "c" }] ∧
    get_command_history
      [{ unknownCommand with intent := "a" }, { unknownCommand with intent := "b" },
       { unknownCommand with intent := "c" }] 0 =
      [{ unknownCommand with intent := "a" }, { unknownCommand with intent := "b" },
       { unknownCommand with intent := "c" }] := by
  have h := c10_history_slice
    [{ unknownCommand with intent := "a" }, { unknownCommand with intent := "b" },
     { unknownCommand with intent := "c" }] 2
  refine ⟨?_, h.2⟩
  have h1 := (h.1 (by omega)).1
  rw [h1]
  rfl

/-! ## Claim C7 -/

/-- **C7**: `remember_command` appends at the end (oldest-first order), the
history never exceeds 100 entries, and the insertion that takes the count past
100 trims to exactly the most recent 50 (a length-50 suffix of the appended
history). -/
theorem c7_history_bound (h : List ParsedCommand) (pc : ParsedCommand)
    (hlen : h.length ≤ 100) :
    (h.length < 100 → remember_command h pc = h ++ [pc]) ∧
    (remember_command h pc).length ≤ 100 ∧
    (h.length = 100 →
      remember_command h pc = (h ++ [pc]).drop 51 ∧
      (remember_command h pc).length = 50 ∧
      remember_command h pc <:+ h ++ [pc]) := by
  unfold remember_command
  have hlen2 : (h ++ [pc]).length = h.length + 1 := by simp
  by_cases hc : 100 < (h ++ [pc]).length
  · have h100 : h.length = 100 := by omega
    rw [if_pos hc]
    refine ⟨by omega, ?_, fun _ => ⟨?_, ?_, ?_⟩⟩
    · rw [List.length_drop]
      omega
    · rw [hlen2, h100]
    · rw [List.length_drop]
      omega
    · rw [hlen2, h100]
      exact List.drop_suffix _ _
  · rw [if_neg hc]
    exact ⟨fun _ => rfl, by omega, fun hx => by omega⟩

/-- Witness for C7: a history of exactly 100 entries is trimmed to the most
recent 50 by the next insertion, and a shorter history is appended to. -/
theorem c7_history_bound_witness :
    remember_command (List.replicate 100 unknownCommand) unknownCommand =
      (List.replicate 100 unknownCommand ++ [unknownCommand]).drop 51 ∧
    (remember_command (List.replicate 100 unknownCommand) unknownCommand).length = 50 ∧
    remember_command [unknownCommand] unknownCommand = [unknownCommand, unknownCommand] := by
  have h := c7_history_bound (List.replicate 100 unknownCommand) unknownCommand
    (by simp)
  have h2 := (h.2.2 (by simp))
  refine ⟨h2.1, h2.2.1, ?_⟩
  have h3 := c7_history_bound [unknownCommand] unknownCommand (by simp)
  have := h3.1 (by simp)
  rw [this]
  rfl

/-! ## Claim C4 -/

/-- The first-violation behaviour of `validate_parameters`: with every earlier
parameter validating and `p` failing, the reported error is `p`'s message. -/
theorem validate_parameters_first (venv : ValEnv) (md : ToolMetadata)
    (kw : List (String × PyVal)) (pre : List ToolParameter) (p : ToolParameter)
    (rest : List ToolParameter)
    (hsplit : md.parameters = pre ++ p :: rest)
    (hpre : ∀ q ∈ pre, (ToolParameter.validate venv q (dictGet kw q.name)).1 = true)
    (hp : (ToolParameter.validate venv p (dictGet kw p.name)).1 = false) :
    validate_parameters venv md kw =
      (false, (ToolParameter.validate venv p (dictGet kw p.name)).2) := by
  unfold validate_parameters
  rw [hsplit]
  have hfind : ∀ pre2 : List ToolParameter,
      (∀ q ∈ pre2, (ToolParameter.validate venv q (dictGet kw q.name)).1 = true) →
      (((pre2 ++ p :: rest).map
          (fun q => ToolParameter.validate venv q (dictGet kw q.name))).find?
        (fun r => !r.1)) = some (ToolParameter.validate venv p (dictGet kw p.name)) := by
    intro pre2
    induction pre2 with
    | nil =>
      intro _
      simp only [List.nil_append, List.map_cons, List.find?]
      rw [hp]
      rfl
    | cons q qs ih =>
      intro hq
      have hqt := hq q (by simp)
      simp only [List.cons_append, List.map_cons, List.find?]
      rw [hqt]
      simp only [Bool.not_true]
      exact ih (fun r hr => hq r (by simp [hr]))
  rw [hfind pre hpre]

/-- **C4**: `safe_execute` always returns a `ToolResult` (it is a total
function) and never raises.  When validation fails, it returns a failed result
whose error is the first violated rule's message, and the tool's `execute` is
never consulted (the result is the same for any two `execute` bodies).  When
validation passes and `execute` raises, the exception is converted into a
failed result carrying the error text and the elapsed time. -/
theorem c4_safe_execute_total (venv : ValEnv) (md : ToolMetadata) (mod : String)
    (ex1 ex2 : List (String × PyVal) → Except String ToolResult)
    (kw : List (String × PyVal)) (t : ℚ) :
    (∀ err, validate_parameters venv md kw = (false, err) →
      safe_execute venv ⟨md, ex1, mod⟩ kw t =
        { success := false, message := "Parameter validation failed",
          error := err, execution_time := t } ∧
      safe_execute venv ⟨md, ex1, mod⟩ kw t = safe_execute venv ⟨md, ex2, mod⟩ kw t) ∧
    (∀ pre p rest, md.parameters = pre ++ p :: rest →
      (∀ q ∈ pre, (ToolParameter.validate venv q (dictGet kw q.name)).1 = true) →
      (ToolParameter.validate venv p (dictGet kw p.name)).1 = false →
      validate_parameters venv md kw =
        (false, (ToolParameter.validate venv p (dictGet kw p.name)).2)) ∧
    (∀ e, validate_parameters venv md kw = (true, Option.none) → ex1 kw = .error e →
      safe_execute venv ⟨md, ex1, mod⟩ kw t =
        { success := false, message := "Tool execution failed",
          error := some ("Tool execution failed: " ++ e), execution_time := t }) := by
  refine ⟨?_, ?_, ?_⟩
  · intro err hval
    constructor
    · unfold safe_execute
      rw [hval]
    · unfold safe_execute
      rw [hval]
  · intro pre p rest hsplit hpre hp
    exact validate_parameters_first venv md kw pre p rest hsplit hpre hp
  · intro e hval hex
    unfold safe_execute
    rw [hval]
    simp only
    rw [hex]

/-- Witness for C4: a missing required parameter produces the fail-fast result
(for any `execute`), and a raising `execute` is converted to a failed result. -/
theorem c4_safe_execute_total_witness :
    safe_execute venv0
      ⟨{ name := "t1", description := "d", category := .UTILITIES,
         parameters := [{ name := "x", type := .STRING, description := "d" }] },
       fun _ => .error "never", "m"⟩ [] 2 =
      { success := false, message := "Parameter validation failed",
        error := some "Parameter 'x' is required", execution_time := 2 } ∧
    safe_execute venv0
      ⟨{ name := "t1", description := "d", category := .UTILITIES,
         parameters := [{ name := "x", type := .STRING, description := "d" }] },
       fun _ => .error "never", "m"⟩ [] 2 =
    safe_execute venv0
      ⟨{ name := "t1", description := "d", category := .UTILITIES,
         parameters := [{ name := "x", type := .STRING, description := "d" }] },
       fun _ => .ok { success := true, message := "other" }, "m"⟩ [] 2 ∧
    safe_execute venv0
      ⟨{ name := "t2", description := "d", category := .UTILITIES },
       fun _ => .error "boom", "m"⟩ [] 3 =
      { success := false, message := "Tool execution failed",
        error := some ("Tool execution failed: boom"), execution_time := 3 } := by
  have h1 := c4_safe_execute_total venv0
    { name := "t1", description := "d", category := .UTILITIES,
      parameters := [{ name := "x", type := .STRING, description := "d" }] }
    "m" (fun _ => .error "never") (fun _ => .ok { success := true, message := "other" }) [] 2
  have h2 := c4_safe_execute_total venv0
    { name := "t2", description := "d", category := .UTILITIES }
    "m" (fun _ => .error "boom") (fun _ => .error "boom") [] 3
  have hv := h1.1 (some "Parameter 'x' is required") rfl
  exact ⟨hv.1, hv.2, h2.2.2 "boom" rfl rfl⟩

/-! ## Claim C3 -/

/-- The names a category holds in the registry's category index. -/
def categoryNames (reg : ToolRegistry) (c : ToolCategory) : List String :=
  (((reg.categories.find? (fun q => q.1 = c)).map (fun q => q.2)).getD [])

/-- A source unit that defines the screenshot tool. -/
def unitShot1 : SourceUnit where
  path := "/plugins/shot.py"
  moduleName := "desktop_mcp_plugin_shot_1"
  load := .ok [.ok screenshotTool]

/-- The same source file reloaded after its tool class was deleted from it. -/
def unitShot2 : SourceUnit where
  path := "/plugins/shot.py"
  moduleName := "desktop_mcp_plugin_shot_2"
  load := .ok []

/-- **C3 counterexample**: loading a unit that registers `take_screenshot` and
then reloading the same path with a source that defines no tools leaves the
primary mapping empty while the category index still lists the name — the
claimed two-way invariant, and the claim that reload purges the category
index, both fail. -/
theorem c3_reload_counterexample :
    (applyOps [RegOp.reload unitShot1, RegOp.reload unitShot2]).registry.tools = [] ∧
    (applyOps [RegOp.reload unitShot1, RegOp.reload unitShot2]).registry.categories.find?
        (fun q => q.1 = ToolCategory.SYSTEM_CONTROL) =
      some (ToolCategory.SYSTEM_CONTROL, ["take_screenshot"]) := by
  constructor
  · rfl
  · rfl

theorem find?_map_keyfix {f : (ToolCategory × List String) → (ToolCategory × List String)}
    (hf : ∀ x, (f x).1 = x.1) (l : List (ToolCategory × List String)) (c : ToolCategory) :
    (l.map f).find? (fun q => q.1 = c) = (l.find? (fun q => q.1 = c)).map f := by
  induction l with
  | nil => rfl
  | cons x xs ih =>
    by_cases hx : x.1 = c
    · rw [List.map_cons, List.find?_cons_of_pos _ (by simp [hf, hx]),
        List.find?_cons_of_pos _ (by simp [hx])]
      rfl
    · rw [List.map_cons, List.find?_cons_of_neg _ (by simp [hf, hx]),
        List.find?_cons_of_neg _ (by simp [hx]), ih]

/-- The category-index rewrite of `register` only ever extends a list. -/
theorem register_catfun_mono (cat : ToolCategory) (nm : String) (n : String)
    (x : ToolCategory × List String) (h : n ∈ x.2) :
    n ∈ ((if x.1 = cat then
            (x.1, if x.2.contains nm then x.2 else x.2 ++ [nm])
          else x) : ToolCategory × List String).2 := by
  by_cases hx : x.1 = cat
  · rw [if_pos hx]
    by_cases hc : x.2.contains nm
    · rw [if_pos hc]
      exact h
    · rw [if_neg hc]
      exact List.mem_append_left _ h
  · rw [if_neg hx]
    exact h

/-- `register` never removes a name from a category list. -/
theorem categoryNames_register_mono (reg : ToolRegistry) (t : Tool) (c : ToolCategory)
    (n : String) (h : n ∈ categoryNames reg c) :
    n ∈ categoryNames (reg.register t) c := by
  unfold categoryNames at h ⊢
  unfold ToolRegistry.register
  simp only
  have hexists : ∃ e, reg.categories.find? (fun q => q.1 = c) = some e ∧ n ∈ e.2 := by
    cases hfind : reg.categories.find? (fun q => q.1 = c) with
    | none => rw [hfind] at h; simp at h
    | some e =>
      rw [hfind] at h
      exact ⟨e, rfl, by simpa using h⟩
  obtain ⟨e, hfind, hn⟩ := hexists
  have hf : ∀ x : ToolCategory × List String,
      ((if x.1 = t.metadata.category then
          (x.1, if x.2.contains t.metadata.name then x.2 else x.2 ++ [t.metadata.name])
        else x) : ToolCategory × List String).1 = x.1 := by
    intro x
    by_cases hx : x.1 = t.metadata.category <;> simp [hx]
  by_cases hany : reg.categories.any (fun p => p.1 = t.metadata.category)
  · rw [if_pos hany, find?_map_keyfix hf, hfind]
    simpa using register_catfun_mono t.metadata.category t.metadata.name n e hn
  · rw [if_neg hany, find?_map_keyfix hf, List.find?_append, hfind, Option.or_some]
    simpa using register_catfun_mono t.metadata.category t.metadata.name n e hn

/-- A tool registered under its metadata name lands in its category's list. -/
theorem categoryNames_register_self (reg : ToolRegistry) (t : Tool) :
    t.metadata.name ∈ categoryNames (reg.register t) t.metadata.category := by
  unfold categoryNames ToolRegistry.register
  simp only
  have hf : ∀ x : ToolCategory × List String,
      ((if x.1 = t.metadata.category then
          (x.1, if x.2.contains t.metadata.name then x.2 else x.2 ++ [t.metadata.name])
        else x) : ToolCategory × List String).1 = x.1 := by
    intro x
    by_cases hx : x.1 = t.metadata.category <;> simp [hx]
  by_cases hany : reg.categories.any (fun p => p.1 = t.metadata.category)
  · rw [if_pos hany, find?_map_keyfix hf]
    have : ∃ e, reg.categories.find? (fun q => q.1 = t.metadata.category) = some e := by
      rw [← Option.isSome_iff_exists, List.find?_isSome]
      simpa using List.any_eq_true.mp hany
    obtain ⟨e, he⟩ := this
    have he1 : e.1 = t.metadata.category := by simpa using List.find?_some he
    rw [he]
    simp only [Option.map_some', Option.getD_some, he1, if_pos rfl]
    by_cases hmem : e.2.contains t.metadata.name
    · rw [if_pos hmem]
      simpa using hmem
    · rw [if_neg hmem]
      simp
  · rw [if_neg hany, find?_map_keyfix hf, List.find?_append]
    have hnone : reg.categories.find? (fun q => q.1 = t.metadata.category) = Option.none := by
      rw [List.find?_eq_none]
      intro x hx hc
      refine absurd (List.any_eq_true.mpr ⟨x, hx, hc⟩) hany
    rw [hnone, Option.none_or, List.find?_cons_of_pos _ (by simp)]
    simp

/-- The single-step invariant: every tool in the primary mapping is keyed by
its metadata name and listed in its category. -/
def RegInv (reg : ToolRegistry) : Prop :=
  ∀ p ∈ reg.tools, p.1 = p.2.metadata.name ∧
    p.1 ∈ categoryNames reg p.2.metadata.category

theorem regInv_register {reg : ToolRegistry} (h : RegInv reg) (t : Tool) :
    RegInv (reg.register t) := by
  intro p hp
  have htools : (reg.register t).tools = toolsInsert reg.tools t.metadata.name t :=
    rfl
  rw [htools] at hp
  unfold toolsInsert at hp
  by_cases hany : reg.tools.any (fun q => q.1 = t.metadata.name)
  · rw [if_pos hany] at hp
    obtain ⟨q, hq, hpq⟩ := List.mem_map.mp hp
    by_cases hqk : q.1 = t.metadata.name
    · rw [if_pos hqk] at hpq
      subst hpq
      exact ⟨rfl, categoryNames_register_self reg t⟩
    · rw [if_neg hqk] at hpq
      subst hpq
      obtain ⟨h1, h2⟩ := h q hq
      exact ⟨h1, categoryNames_register_mono reg t _ _ h2⟩
  · rw [if_neg hany] at hp
    rcases List.mem_append.mp hp with hin | hnew
    · obtain ⟨h1, h2⟩ := h p hin
      exact ⟨h1, categoryNames_register_mono reg t _ _ h2⟩
    · have : p = (t.metadata.name, t) := by simpa using hnew
      subst this
      exact ⟨rfl, categoryNames_register_self reg t⟩

theorem regInv_removeModule {reg : ToolRegistry} (h : RegInv reg) (m : String) :
    RegInv (removeModuleTools reg m) := by
  intro p hp
  have hmem : p ∈ reg.tools := (List.mem_filter.mp hp).1
  obtain ⟨h1, h2⟩ := h p hmem
  exact ⟨h1, h2⟩

/-- A fold whose second component only moves through invariant-preserving
steps preserves the invariant. -/
theorem foldl_snd_invariant {α β : Type} (P : β → Prop)
    (step : (List String × β) → α → (List String × β))
    (hstep : ∀ s a, P s.2 → P (step s a).2) :
    ∀ (l : List α) (s : List String × β), P s.2 → P (l.foldl step s).2 := by
  intro l
  induction l with
  | nil => intro s hs; exact hs
  | cons a rest ih =>
    intro s hs
    exact ih _ (hstep s a hs)

theorem regInv_loadFile {reg : ToolRegistry} (h : RegInv reg) (u : SourceUnit)
    {r : List String × ToolRegistry}
    (hload : load_tools_from_file reg u = .ok r) : RegInv r.2 := by
  unfold load_tools_from_file at hload
  cases hu : u.load with
  | error e => rw [hu] at hload; exact absurd hload (by simp)
  | ok classes =>
    rw [hu] at hload
    simp only [Except.ok.injEq] at hload
    rw [← hload]
    refine foldl_snd_invariant RegInv _ ?_ classes ([], reg) h
    intro s a hs
    cases a with
    | ok t => exact regInv_register hs _
    | error e => exact hs

theorem regInv_pmLoadFile {pm : PluginManager} (h : RegInv pm.registry) (u : SourceUnit)
    {r : List String × PluginManager}
    (hload : pmLoadFile pm u = .ok r) : RegInv r.2.registry := by
  unfold pmLoadFile at hload
  cases hl2 : load_tools_from_file pm.registry u with
  | ok r2 =>
    rw [hl2] at hload
    simp only [Except.ok.injEq] at hload
    rw [← hload]
    exact regInv_loadFile h u hl2
  | error e => rw [hl2] at hload; exact absurd hload (by simp)

theorem regInv_reloadPrep {pm : PluginManager} (h : RegInv pm.registry) (u : SourceUnit) :
    RegInv (reloadPrep pm u).registry := by
  unfold reloadPrep
  cases pm.loaded_modules.find? (fun p => p.1 = u.path) with
  | none => exact h
  | some entry => exact regInv_removeModule h entry.2

theorem regInv_applyOp {pm : PluginManager} (h : RegInv pm.registry) (op : RegOp) :
    RegInv (applyOp pm op).registry := by
  cases op with
  | register t => exact regInv_register h t
  | reload u =>
    show RegInv (reload_plugin pm u).2.registry
    unfold reload_plugin
    have h1 : RegInv (reloadPrep pm u).registry := regInv_reloadPrep h u
    cases hload : pmLoadFile (reloadPrep pm u) u with
    | ok r => exact regInv_pmLoadFile h1 u hload
    | error e => exact h1

/-- **C3 (amended)**: after any sequence of register and reload operations,
every name in the primary mapping is its tool's metadata name and appears in
the category index under that tool's category.  (The converse of the claimed
invariant fails — see the counterexample: reload removes names only from the
primary mapping, leaving stale category-index entries, which the category
lookup filters out.) -/
theorem c3_registry_invariant (ops : List RegOp) (p : String × Tool)
    (hp : p ∈ (applyOps ops).registry.tools) :
    p.1 = p.2.metadata.name ∧
    p.1 ∈ categoryNames (applyOps ops).registry p.2.metadata.category := by
  have hinv : ∀ (l : List RegOp) (pm : PluginManager), RegInv pm.registry →
      RegInv (l.foldl applyOp pm).registry := by
    intro l
    induction l with
    | nil => intro pm h; exact h
    | cons op rest ih =>
      intro pm h
      exact ih _ (regInv_applyOp h op)
  exact hinv ops {} (fun q hq => absurd hq (by simp)) p hp

/-- Witness for C3 (amended): a freshly registered screenshot tool is indexed
under its category. -/
theorem c3_registry_invariant_witness :
    "take_screenshot" = screenshotTool.metadata.name ∧
    "take_screenshot" ∈ categoryNames
      (applyOps [RegOp.register screenshotTool]).registry
      screenshotTool.metadata.category := by
  have h := c3_registry_invariant [RegOp.register screenshotTool]
    ("take_screenshot", screenshotTool)
    (by exact List.mem_singleton.mpr rfl)
  exact h

/-! ## Claim C5 -/

/-- The tool names a unit contributes: the metadata names of exactly those
classes whose constructor succeeds, in order; none for a unit that fails to
load as a whole. -/
def unitToolNames (u : SourceUnit) : List String :=
  match u.load with
  | .ok classes =>
    classes.filterMap (fun c =>
      match c with
      | .ok t => some t.metadata.name
      | .error _ => Option.none)
  | .error _ => []

/-- The error a unit contributes to the discovery result: only a unit-level
load failure produces one. -/
def unitErr (u : SourceUnit) : Option String :=
  match u.load with
  | .error e => some ("Failed to load tools from " ++ u.path ++ ": " ++ e)
  | .ok _ => Option.none

/-- A tool whose constructor succeeds, defined in a unit alongside one whose
constructor raises. -/
def toolA : Tool where
  metadata := { name := "tool_a", description := "a", category := .UTILITIES }
  execute := fun _ => .ok { success := true, message := "ok" }

/-- A unit whose first Capability class raises from its constructor and whose
second instantiates fine. -/
def unitBad : SourceUnit where
  path := "/plugins/bad.py"
  moduleName := "desktop_mcp_plugin_bad_1"
  load := .ok [.error "boom", .ok toolA]

/-- **C5 counterexample**: discovering a unit that contains an instantiation
failure still loads the other Capability of the unit, but the failure is only
logged — the discovery result's error list stays empty, contradicting the
claim that each instantiation failure is collected into it. -/
theorem c5_instantiation_error_not_collected :
    (load_tools_from_directory {} [unitBad]).1.errors = [] ∧
    (load_tools_from_directory {} [unitBad]).1.tools = ["tool_a"] ∧
    (load_tools_from_directory {} [unitBad]).1.loaded = 1 ∧
    (match unitBad.load with
     | .ok cls => cls.any (fun c => match c with | .error _ => true | .ok _ => false)
     | .error _ => false) = true := by
  exact ⟨rfl, rfl, rfl, rfl⟩

/-- The name component of the instantiation loop: exactly the names of the
classes that instantiate, in order. -/
theorem loadClassStep_fold_names (mname : String) :
    ∀ (cls : List (Except String Tool)) (acc : List String) (r : ToolRegistry),
      (cls.foldl (loadClassStep mname) (acc, r)).1 =
      acc ++ cls.filterMap (fun c =>
        match c with
        | .ok t => some t.metadata.name
        | .error _ => Option.none) := by
  intro cls
  induction cls with
  | nil => intro acc r; simp
  | cons c cl ih =>
    intro acc r
    cases c with
    | ok t =>
      simp only [List.foldl_cons, List.filterMap_cons]
      rw [show loadClassStep mname (acc, r) (.ok t) =
        (acc ++ [({ t with module := mname } : Tool).metadata.name],
         r.register { t with module := mname }) from rfl]
      rw [ih]
      simp
    | error e =>
      simp only [List.foldl_cons, List.filterMap_cons]
      rw [show loadClassStep mname (acc, r) (.error e) = (acc, r) from rfl]
      rw [ih]

/-- The tools reported by `pmLoadFile` on success are the unit's
successfully instantiating classes; the unit contributes no discovery error. -/
theorem pmLoadFile_ok_names {pm : PluginManager} {u : SourceUnit}
    {r : List String × PluginManager} (h : pmLoadFile pm u = .ok r) :
    r.1 = unitToolNames u ∧ unitErr u = Option.none := by
  unfold pmLoadFile at h
  cases hl : load_tools_from_file pm.registry u with
  | error e => rw [hl] at h; exact absurd h (by simp)
  | ok r2 =>
    rw [hl] at h
    simp only [Except.ok.injEq] at h
    unfold load_tools_from_file at hl
    cases hu : u.load with
    | error e => rw [hu] at hl; exact absurd hl (by simp)
    | ok classes =>
      rw [hu] at hl
      simp only [Except.ok.injEq] at hl
      constructor
      · rw [← h]
        show r2.1 = unitToolNames u
        rw [← hl]
        rw [loadClassStep_fold_names u.moduleName classes [] pm.registry]
        unfold unitToolNames
        rw [hu]
        simp
      · unfold unitErr
        rw [hu]

/-- A unit-level load failure surfaces as the `pmLoadFile` exception. -/
theorem pmLoadFile_error_char {pm : PluginManager} {u : SourceUnit} {e : String}
    (h : pmLoadFile pm u = .error e) :
    u.load = .error e ∧ unitErr u = some ("Failed to load tools from " ++ u.path ++ ": " ++ e) ∧
    unitToolNames u = [] := by
  unfold pmLoadFile at h
  cases hl : load_tools_from_file pm.registry u with
  | ok r2 => rw [hl] at h; exact absurd h (by simp)
  | error e2 =>
    rw [hl] at h
    simp only [Except.error.injEq] at h
    unfold load_tools_from_file at hl
    cases hu : u.load with
    | ok classes => rw [hu] at hl; exact absurd hl (by simp)
    | error e3 =>
      rw [hu] at hl
      simp only [Except.error.injEq] at hl
      subst hl
      subst h
      refine ⟨rfl, ?_, ?_⟩
      · unfold unitErr
        rw [hu]
      · unfold unitToolNames
        rw [hu]

/-- **C5 (amended)**: a Capability constructor that raises aborts neither the
loading of the unit's other Capabilities nor that of other units — the loaded
tools are exactly the successfully instantiating classes of the successfully
loading units, in order — but such instantiation failures are only logged: the
discovery result's error list collects exactly the unit-level load failures. -/
theorem c5_discovery_isolation (pm : PluginManager) (units : List SourceUnit) :
    (load_tools_from_directory pm units).1.tools = (units.map unitToolNames).flatten ∧
    (load_tools_from_directory pm units).1.errors = units.filterMap unitErr ∧
    (load_tools_from_directory pm units).1.loaded =
      ((units.map unitToolNames).flatten).length := by
  unfold load_tools_from_directory
  have hgen : ∀ (us : List SourceUnit) (acc : DirResult) (pm0 : PluginManager),
      (us.foldl
        (fun acc2 u =>
          match pmLoadFile acc2.2 u with
          | .ok r =>
            ({ loaded := acc2.1.loaded + r.1.length, tools := acc2.1.tools ++ r.1,
               errors := acc2.1.errors }, r.2)
          | .error e =>
            ({ acc2.1 with
               errors := acc2.1.errors ++
                 ["Failed to load tools from " ++ u.path ++ ": " ++ e] },
             acc2.2))
        (acc, pm0)).1 =
      { loaded := acc.loaded + ((us.map unitToolNames).flatten).length,
        tools := acc.tools ++ (us.map unitToolNames).flatten,
        errors := acc.errors ++ us.filterMap unitErr } := by
    intro us
    induction us with
    | nil =>
      intro acc pm0
      simp only [List.foldl_nil, List.map_nil, List.flatten_nil, List.filterMap_nil,
        List.append_nil, List.length_nil, Nat.add_zero]
    | cons u rest ih =>
      intro acc pm0
      simp only [List.foldl_cons, List.map_cons, List.flatten_cons, List.filterMap_cons]
      cases hpm : pmLoadFile pm0 u with
      | ok r =>
        obtain ⟨hnames, herr⟩ := pmLoadFile_ok_names hpm
        simp only [herr, hnames, ih, List.append_assoc, List.length_append,
          DirResult.mk.injEq]
        exact ⟨by omega, trivial, trivial⟩
      | error e =>
        obtain ⟨hu, herr, hnames⟩ := pmLoadFile_error_char hpm
        simp only [herr, hnames, ih, List.append_assoc, List.length_append,
          List.nil_append, List.length_nil, List.singleton_append, DirResult.mk.injEq]
  have h := hgen units {} pm
  rw [h]
  simp

/-! ## Claim C1 -/

/-- **C1 (amended)**: the actual stage selection of `parse_command` for a
non-empty normalised input.  A pattern-stage candidate with confidence above
0.7 is returned immediately, without consulting the tool-name stage at all;
only otherwise do the advisory NLP stage (returned exactly when it strictly
beats the pattern stage) and then the tool-name stage (returned exactly when it
strictly beats the pattern stage) get a chance; ties keep the pattern
candidate, subject to the below-0.3 fallback. -/
theorem c1_stage_selection (env : Env) (st : ParserState) (s : String)
    (hne : ¬ pyNormalize s = "") :
    ((match_patterns env st.patterns (pyNormalize s)).confidence > mkRat 7 10 →
      parse_command env st s = match_patterns env st.patterns (pyNormalize s)) ∧
    (¬ (match_patterns env st.patterns (pyNormalize s)).confidence > mkRat 7 10 →
      env.spacy = true →
      (parse_with_nlp env st.registry (pyNormalize s)).confidence >
        (match_patterns env st.patterns (pyNormalize s)).confidence →
      parse_command env st s = parse_with_nlp env st.registry (pyNormalize s)) ∧
    (¬ (match_patterns env st.patterns (pyNormalize s)).confidence > mkRat 7 10 →
      (env.spacy = true →
        ¬ (parse_with_nlp env st.registry (pyNormalize s)).confidence >
          (match_patterns env st.patterns (pyNormalize s)).confidence) →
      (match_tool_names env st.registry (pyNormalize s)).confidence >
        (match_patterns env st.patterns (pyNormalize s)).confidence →
      parse_command env st s = match_tool_names env st.registry (pyNormalize s)) ∧
    (¬ (match_patterns env st.patterns (pyNormalize s)).confidence > mkRat 7 10 →
      (env.spacy = true →
        ¬ (parse_with_nlp env st.registry (pyNormalize s)).confidence >
          (match_patterns env st.patterns (pyNormalize s)).confidence) →
      ¬ (match_tool_names env st.registry (pyNormalize s)).confidence >
        (match_patterns env st.patterns (pyNormalize s)).confidence →
      ¬ (match_patterns env st.patterns (pyNormalize s)).confidence < mkRat 3 10 →
      parse_command env st s = match_patterns env st.patterns (pyNormalize s)) := by
  have htail : ∀ (p : ParsedCommand),
      ((match_tool_names env st.registry (pyNormalize s)).confidence > p.confidence →
        parse_command_tail env st (pyNormalize s) p =
          match_tool_names env st.registry (pyNormalize s)) ∧
      (¬ (match_tool_names env st.registry (pyNormalize s)).confidence > p.confidence →
        ¬ p.confidence < mkRat 3 10 →
        parse_command_tail env st (pyNormalize s) p = p) := by
    intro p
    constructor
    · intro ht
      unfold parse_command_tail
      rw [if_pos ht]
    · intro ht h03
      unfold parse_command_tail
      rw [if_neg ht, if_neg ht, if_neg h03]
  refine ⟨?_, ?_, ?_, ?_⟩
  · intro h7
    simp only [parse_command]
    rw [if_neg hne, if_pos h7]
  · intro h7 hsp hn
    simp only [parse_command]
    rw [if_neg hne, if_neg h7, hsp]
    simp only [if_true]
    rw [if_pos hn]
  · intro h7 hnlp ht
    simp only [parse_command]
    rw [if_neg hne, if_neg h7]
    cases hsp : env.spacy with
    | true =>
      simp only [if_true]
      rw [if_neg (hnlp hsp)]
      exact (htail _).1 ht
    | false =>
      simp only [Bool.false_eq_true, if_false]
      exact (htail _).1 ht
  · intro h7 hnlp ht h03
    simp only [parse_command]
    rw [if_neg hne, if_neg h7]
    cases hsp : env.spacy with
    | true =>
      simp only [if_true]
      rw [if_neg (hnlp hsp)]
      exact (htail _).2 ht h03
    | false =>
      simp only [Bool.false_eq_true, if_false]
      exact (htail _).2 ht h03

/-- Witness for C1 (amended): on `"open calculator"` the pattern stage scores
0.9 > 0.7 and `parse_command` returns its candidate. -/
theorem c1_stage_selection_witness :
    parse_command envNone { registry := {} } "open calculator" =
      match_patterns envNone builtin_patterns (pyNormalize "open calculator") := by
  have h := c1_stage_selection envNone { registry := {} } "open calculator" (by decide)
  exact h.1 (by decide)

/-- The registry holding only the screenshot tool. -/
def shotRegistry : ToolRegistry := ToolRegistry.register {} screenshotTool

def shotState : ParserState := { registry := shotRegistry }

/-- An environment with `fuzzywuzzy` available.  The oracle values model the
real library on the comparisons this example makes: `fuzz.partial_ratio`
returns 100 when one string occurs verbatim inside the other (here the tool
name `take_screenshot` inside the command), and sub-threshold scores for the
other consulted pairs (pattern examples ≈ 0.5, the tool description ≈ 0.4). -/
def fzEnv : Env where
  spacy := false
  fuzzy := true
  ratioFn := fun _ _ => 50
  partRatioFn := fun _ t => if t = "take_screenshot" then 100 else 40
  wratioFn := fun _ _ => 0
  ents := fun _ => []
  verbs := fun _ => []

/-- **C1 counterexample**: on the non-empty input
`"take screenshot take_screenshot"` the tool-name stage scores 1.0 (fuzzy
partial-ratio of the registered name, an exact substring) while the pattern
stage scores 0.9, yet `parse_command` returns the pattern-stage candidate: the
pattern stage's early return above 0.7 fires before the tool-name stage is
consulted, so the claim that the higher-confidence candidate of the two stages
is always returned is false. -/
theorem c1_early_return_counterexample :
    (match_tool_names fzEnv shotRegistry "take screenshot take_screenshot").confidence = 1 ∧
    (match_patterns fzEnv builtin_patterns "take screenshot take_screenshot").confidence
      = mkRat 9 10 ∧
    (mkRat 9 10 < 1) ∧
    parse_command fzEnv shotState "take screenshot take_screenshot" =
      match_patterns fzEnv builtin_patterns "take screenshot take_screenshot" ∧
    parse_command fzEnv shotState "take screenshot take_screenshot" ≠
      match_tool_names fzEnv shotRegistry "take screenshot take_screenshot" := by
  refine ⟨by decide, by decide, by decide, rfl, ?_⟩
  intro h
  have ha := congrArg ParsedCommand.action h
  have h1 : (parse_command fzEnv shotState "take screenshot take_screenshot").action
      = "screenshot" := rfl
  have h2 : (match_tool_names fzEnv shotRegistry
      "take screenshot take_screenshot").action = "run" := rfl
  rw [h1, h2] at ha
  exact absurd ha (by decide)

end DesktopMCP

namespace DesktopMCP

/-! ## Claim C8: input normalisation and lower-case outputs

`parse_command` begins with `command = command.strip().lower()`, so its result
only depends on the trimmed, lower-cased input.  Every string the parser then
stores into entities or parameters is built from characters of that normalised
command: regex captures (`_extract_entities_from_match`), `re.findall`
captures (`_extract_common_entities`), spaCy entity texts — substrings of the
analysed document — and the fallback echo of the command itself.  Hence every
such value is itself fixed by lower-casing. -/

/-- Every character of a normalised command is fixed by `str.lower`. -/
theorem pyNormalize_lowerFixed (s : String) :
    ∀ c ∈ (pyNormalize s).data, pyLowerChar c = c := by
  intro c hc
  have hd : (pyNormalize s).data = List.map pyLowerChar (pyStripL s.data) := rfl
  rw [hd] at hc
  rcases List.mem_map.mp hc with ⟨c0, _, rfl⟩
  exact pyLowerChar_idem c0

mutual

/-- A Python value all of whose strings are fixed by lower-casing. -/
def ValLower : PyVal → Prop
  | .str s => ∀ c ∈ s.data, pyLowerChar c = c
  | .int _ => True
  | .float _ => True
  | .bool _ => True
  | .list l => ValLowerList l
  | .dict d => ValLowerDict d
  | .none => True

/-- All members of a list of values survive lower-casing. -/
def ValLowerList : List PyVal → Prop
  | [] => True
  | v :: vs => ValLower v ∧ ValLowerList vs

/-- All values of a dictionary survive lower-casing. -/
def ValLowerDict : List (String × PyVal) → Prop
  | [] => True
  | q :: qs => ValLower q.2 ∧ ValLowerDict qs

end

/-- All values of an entity or parameter dictionary survive lower-casing. -/
def EntsLower (d : List (String × PyVal)) : Prop := ∀ q ∈ d, ValLower q.2

theorem valLowerList_map_str : ∀ (l : List (List Char)),
    (∀ g ∈ l, ∀ c ∈ g, pyLowerChar c = c) →
    ValLowerList (l.map (fun g => PyVal.str ⟨g⟩)) := by
  intro l
  induction l with
  | nil => intro _; simp only [List.map_nil, ValLowerList]
  | cons x xs ih =>
    intro h
    simp only [List.map_cons, ValLowerList]
    refine ⟨?_, ih (fun g hg => h g (List.mem_cons_of_mem x hg))⟩
    simp only [ValLower]
    intro c hcc
    exact h x (List.mem_cons_self x xs) c hcc

theorem valLower_map_str {l : List (List Char)}
    (h : ∀ g ∈ l, ∀ c ∈ g, pyLowerChar c = c) :
    ValLower (.list (l.map (fun g => PyVal.str ⟨g⟩))) := by
  simp only [ValLower]
  exact valLowerList_map_str l h

theorem valLowerList_map_int : ∀ (l : List (List Char)),
    ValLowerList (l.map (fun g => PyVal.int (digitsToInt g))) := by
  intro l
  induction l with
  | nil => simp only [List.map_nil, ValLowerList]
  | cons x xs ih =>
    simp only [List.map_cons, ValLowerList]
    exact ⟨by simp only [ValLower], ih⟩

theorem valLower_map_int {l : List (List Char)} :
    ValLower (.list (l.map (fun g => PyVal.int (digitsToInt g)))) := by
  simp only [ValLower]
  exact valLowerList_map_int l

/-- A property of the accumulator preserved by every step of a fold (the step
function only ever being applied to members of the folded list). -/
theorem foldl_invariant_mem {α β : Type} (P : β → Prop) (f : β → α → β) :
    ∀ (l : List α), (∀ b, ∀ a ∈ l, P b → P (f b a)) → ∀ b, P b → P (l.foldl f b) := by
  intro l
  induction l with
  | nil => intro _ b hb; exact hb
  | cons x xs ih =>
    intro hf b hb
    exact ih (fun b a ha hb2 => hf b a (List.mem_cons_of_mem x ha) hb2) (f b x)
      (hf b x (List.mem_cons_self x xs) hb)

theorem entsLower_dictInsert {d : List (String × PyVal)} {k : String} {v : PyVal}
    (hd : EntsLower d) (hv : ValLower v) : EntsLower (dictInsert d k v) := by
  intro q hq
  unfold dictInsert at hq
  by_cases hk : d.any (fun p => p.1 = k)
  · rw [if_pos hk] at hq
    rcases List.mem_map.mp hq with ⟨p, hp, rfl⟩
    by_cases hpk : p.1 = k
    · rw [if_pos hpk]
      exact hv
    · rw [if_neg hpk]
      exact hd p hp
  · rw [if_neg hk] at hq
    rcases List.mem_append.mp hq with h1 | h1
    · exact hd q h1
    · rcases List.mem_singleton.mp h1 with rfl
      exact hv

theorem entsLower_dictUpdate : ∀ (e d : List (String × PyVal)),
    EntsLower d → EntsLower e → EntsLower (dictUpdate d e) := by
  intro e
  induction e with
  | nil => intro d hd _; exact hd
  | cons x xs ih =>
    intro d hd he
    have hx : ValLower x.2 := he x (List.mem_cons_self x xs)
    have hxs : EntsLower xs := fun q hq => he q (List.mem_cons_of_mem x hq)
    have h2 := ih (dictInsert d x.1 x.2) (entsLower_dictInsert hd hx) hxs
    unfold dictUpdate at h2 ⊢
    simp only [List.foldl_cons]
    exact h2

theorem valLower_dictGet {d : List (String × PyVal)} (hd : EntsLower d) (k : String) :
    ValLower (dictGet d k) := by
  unfold dictGet
  split
  · rename_i p hp
    exact hd p (List.mem_of_find?_eq_some hp)
  · simp only [ValLower]

theorem valLower_pyListHead {v : PyVal} (hv : ValLower v) : ValLower (pyListHead v) := by
  cases v with
  | list l =>
    cases l with
    | nil => simp only [pyListHead, ValLower]
    | cons x xs =>
      simp only [pyListHead]
      simp only [ValLower, ValLowerList] at hv
      exact hv.1
  | str s => simp only [pyListHead, ValLower]
  | int n => simp only [pyListHead, ValLower]
  | float q => simp only [pyListHead, ValLower]
  | bool b => simp only [pyListHead, ValLower]
  | dict d => simp only [pyListHead, ValLower]
  | none => simp only [pyListHead, ValLower]

/-! ### The regex engine only captures characters of its input -/

theorem gkindCands_sub {g : GKind} {cs : List Char} {p : List Char × List Char}
    (h : p ∈ gkindCands g cs) :
    (∀ c ∈ p.1, c ∈ cs) ∧ ∀ c ∈ p.2, c ∈ cs := by
  unfold gkindCands at h
  rcases List.mem_map.mp h with ⟨k, _, hk⟩
  subst hk
  exact ⟨fun c hc => List.mem_of_mem_take hc, fun c hc => List.mem_of_mem_drop hc⟩

theorem matchElems_sub : ∀ (es : List RElem) (cs : List Char) (gs : List (List Char)),
    matchElems es cs = some gs → ∀ g ∈ gs, ∀ c ∈ g, c ∈ cs := by
  intro es
  induction es with
  | nil =>
    intro cs gs h g hg
    simp only [matchElems, Option.some.injEq] at h
    subst h
    cases hg
  | cons e es ih =>
    intro cs gs h g hg c hc
    cases e with
    | lit s =>
      simp only [matchElems] at h
      by_cases hp : s.isPrefixOf cs
      · rw [if_pos hp] at h
        exact List.mem_of_mem_drop (ih (cs.drop s.length) gs h g hg c hc)
      · rw [if_neg hp] at h
        exact Option.noConfusion h
    | grp gk =>
      simp only [matchElems] at h
      rcases List.exists_of_findSome?_eq_some h with ⟨p, hpmem, hpeq⟩
      rcases Option.map_eq_some'.mp hpeq with ⟨gs2, hgs2, hgseq⟩
      subst hgseq
      rcases List.mem_cons.mp hg with rfl | hg2
      · exact (gkindCands_sub hpmem).1 c hc
      · exact (gkindCands_sub hpmem).2 c (ih p.2 gs2 hgs2 g hg2 c hc)

theorem reSearch_sub {es : List RElem} : ∀ (cs : List Char) (gs : List (List Char)),
    reSearch es cs = some gs → ∀ g ∈ gs, ∀ c ∈ g, c ∈ cs := by
  intro cs
  induction cs with
  | nil =>
    intro gs h
    simp only [reSearch] at h
    exact matchElems_sub es [] gs h
  | cons a t ih =>
    intro gs h g hg c hc
    simp only [reSearch] at h
    split at h
    · rename_i gs2 hm
      injection h with h2
      subst h2
      exact matchElems_sub es (a :: t) gs2 hm g hg c hc
    · exact List.mem_cons_of_mem a (ih gs h g hg c hc)

/-- A matcher whose capture and leftover input both consist of characters of
the input it was run on. -/
def MatcherSub (m : Matcher) : Prop :=
  ∀ prev cs p, m prev cs = some p → (∀ c ∈ p.1, c ∈ cs) ∧ ∀ c ∈ p.2, c ∈ cs

theorem findAllAux_sub {m : Matcher} (hm : MatcherSub m) :
    ∀ (fuel : ℕ) (prev : Option Char) (cs : List Char),
      ∀ g ∈ findAllAux m prev cs fuel, ∀ c ∈ g, c ∈ cs := by
  intro fuel
  induction fuel with
  | zero =>
    intro prev cs g hg
    simp only [findAllAux] at hg
    cases hg
  | succ n ih =>
    intro prev cs g hg c hc
    simp only [findAllAux] at hg
    split at hg
    · rename_i cap rest hp
      rcases List.mem_cons.mp hg with rfl | hg2
      · exact (hm prev cs _ hp).1 c hc
      · exact (hm prev cs _ hp).2 c (ih Option.none rest g hg2 c hc)
    · rename_i hp
      cases cs with
      | nil => exact absurd hg (List.not_mem_nil g)
      | cons a t => exact List.mem_cons_of_mem a (ih (some a) t g hg c hc)

theorem findAll_sub {m : Matcher} (hm : MatcherSub m) (cs : List Char) :
    ∀ g ∈ findAll m cs, ∀ c ∈ g, c ∈ cs :=
  findAllAux_sub hm (cs.length + 1) Option.none cs

end DesktopMCP

namespace DesktopMCP

/-! ### Each `re.findall` matcher only captures characters of its input -/

theorem matcherSub_unixPathM : MatcherSub unixPathM := by
  intro prev cs p h
  simp only [unixPathM] at h
  split at h
  · split at h
    · exact Option.noConfusion h
    · injection h with h2
      subst h2
      refine ⟨fun x hx => ?_, fun x hx => ?_⟩
      · rcases List.mem_cons.mp hx with rfl | hx2
        · exact List.mem_cons_self _ _
        · exact List.mem_cons_of_mem _ ((List.takeWhile_sublist _).subset hx2)
      · exact List.mem_cons_of_mem _ (List.mem_of_mem_drop hx)
  · exact Option.noConfusion h

theorem matcherSub_homePathM : MatcherSub homePathM := by
  intro prev cs p h
  simp only [homePathM] at h
  split at h
  · split at h
    · exact Option.noConfusion h
    · injection h with h2
      subst h2
      refine ⟨fun x hx => ?_, fun x hx => ?_⟩
      · rcases List.mem_cons.mp hx with rfl | hx2
        · exact List.mem_cons_self _ _
        rcases List.mem_cons.mp hx2 with rfl | hx3
        · exact List.mem_cons_of_mem _ (List.mem_cons_self _ _)
        · exact List.mem_cons_of_mem _
            (List.mem_cons_of_mem _ ((List.takeWhile_sublist _).subset hx3))
      · exact List.mem_cons_of_mem _
          (List.mem_cons_of_mem _ (List.mem_of_mem_drop hx))
  · exact Option.noConfusion h

theorem matcherSub_relPathM : MatcherSub relPathM := by
  intro prev cs p h
  simp only [relPathM] at h
  split at h
  · split at h
    · exact Option.noConfusion h
    · injection h with h2
      subst h2
      refine ⟨fun x hx => ?_, fun x hx => ?_⟩
      · rcases List.mem_cons.mp hx with rfl | hx2
        · exact List.mem_cons_self _ _
        rcases List.mem_cons.mp hx2 with rfl | hx3
        · exact List.mem_cons_of_mem _ (List.mem_cons_self _ _)
        · exact List.mem_cons_of_mem _
            (List.mem_cons_of_mem _ ((List.takeWhile_sublist _).subset hx3))
      · exact List.mem_cons_of_mem _
          (List.mem_cons_of_mem _ (List.mem_of_mem_drop hx))
  · exact Option.noConfusion h

theorem matcherSub_winPathM : MatcherSub winPathM := by
  intro prev cs p h
  simp only [winPathM] at h
  split at h
  · split at h
    · split at h
      · exact Option.noConfusion h
      · injection h with h2
        subst h2
        refine ⟨fun x hx => ?_, fun x hx => ?_⟩
        · rcases List.mem_cons.mp hx with rfl | hx2
          · exact List.mem_cons_self _ _
          rcases List.mem_cons.mp hx2 with rfl | hx3
          · exact List.mem_cons_of_mem _ (List.mem_cons_self _ _)
          rcases List.mem_cons.mp hx3 with rfl | hx4
          · exact List.mem_cons_of_mem _
              (List.mem_cons_of_mem _ (List.mem_cons_self _ _))
          · exact List.mem_cons_of_mem _ (List.mem_cons_of_mem _
              (List.mem_cons_of_mem _ ((List.takeWhile_sublist _).subset hx4)))
        · exact List.mem_cons_of_mem _ (List.mem_cons_of_mem _
            (List.mem_cons_of_mem _ (List.mem_of_mem_drop hx)))
    · exact Option.noConfusion h
  · exact Option.noConfusion h

theorem matcherSub_parentPathM : MatcherSub parentPathM := by
  intro prev cs p h
  simp only [parentPathM] at h
  split at h
  · split at h
    · split at h
      · exact Option.noConfusion h
      · injection h with h2
        subst h2
        refine ⟨fun x hx => ?_, fun x hx => ?_⟩
        · rcases List.mem_cons.mp hx with rfl | hx2
          · exact List.mem_cons_self _ _
          rcases List.mem_cons.mp hx2 with rfl | hx3
          · exact List.mem_cons_of_mem _ (List.mem_cons_self _ _)
          rcases List.mem_cons.mp hx3 with rfl | hx4
          · exact List.mem_cons_of_mem _
              (List.mem_cons_of_mem _ (List.mem_cons_self _ _))
          · exact List.mem_cons_of_mem _ (List.mem_cons_of_mem _
              (List.mem_cons_of_mem _ ((List.takeWhile_sublist _).subset hx4)))
        · exact List.mem_cons_of_mem _ (List.mem_cons_of_mem _
            (List.mem_cons_of_mem _ (List.mem_of_mem_drop hx)))
    · exact Option.noConfusion h
  · exact Option.noConfusion h

theorem matcherSub_urlM : MatcherSub urlM := by
  intro prev cs p h
  simp only [urlM] at h
  split at h
  · split at h
    · exact Option.noConfusion h
    · injection h with h2
      subst h2
      constructor
      · intro x hx
        simp only [List.mem_append, List.mem_cons, List.not_mem_nil, or_false] at hx
        simp only [List.mem_cons]
        rcases hx with hx | hx
        · tauto
        · have hr : x ∈ _ := (List.takeWhile_sublist _).subset hx
          tauto
      · intro x hx
        simp only [List.mem_cons]
        have hr : x ∈ _ := List.mem_of_mem_drop hx
        tauto
  · split at h
    · exact Option.noConfusion h
    · injection h with h2
      subst h2
      constructor
      · intro x hx
        simp only [List.mem_append, List.mem_cons, List.not_mem_nil, or_false] at hx
        simp only [List.mem_cons]
        rcases hx with hx | hx
        · tauto
        · have hr : x ∈ _ := (List.takeWhile_sublist _).subset hx
          tauto
      · intro x hx
        simp only [List.mem_cons]
        have hr : x ∈ _ := List.mem_of_mem_drop hx
        tauto
  · exact Option.noConfusion h

theorem matcherSub_numberM : MatcherSub numberM := by
  intro prev cs p h
  simp only [numberM] at h
  split at h
  · exact Option.noConfusion h
  · split at h
    · split at h
      · injection h with h2
        subst h2
        refine ⟨fun x hx => (List.takeWhile_sublist _).subset hx, fun x hx => ?_⟩
        exact absurd hx (List.not_mem_nil x)
      · split at h
        · exact Option.noConfusion h
        · injection h with h2
          subst h2
          exact ⟨fun x hx => (List.takeWhile_sublist _).subset hx,
                 fun x hx => List.mem_of_mem_drop hx⟩
    · exact Option.noConfusion h

theorem matcherSub_quotedM : MatcherSub quotedM := by
  intro prev cs p h
  simp only [quotedM] at h
  split at h
  · rename_i rest
    split at h
    · rename_i rest2 heq2
      injection h with h2
      subst h2
      constructor
      · intro x hx
        exact List.mem_cons_of_mem _ ((List.takeWhile_sublist _).subset hx)
      · intro x hx
        have hdr : x ∈ List.drop (List.takeWhile (fun c => c ≠ '"') rest).length rest := by
          rw [heq2]
          exact List.mem_cons_of_mem _ hx
        exact List.mem_cons_of_mem _ (List.mem_of_mem_drop hdr)
    · exact Option.noConfusion h
  · exact Option.noConfusion h

theorem matcherSub_emailM : MatcherSub emailM := by
  intro prev cs p h
  simp only [emailM] at h
  split at h
  · exact Option.noConfusion h
  · split at h
    · split at h
      · split at h
        · rename_i rest2 heq2 x dl heq3
          injection h with h2
          subst h2
          have hr2 : ∀ y : Char, y ∈ rest2 → y ∈ cs := by
            intro y hy
            have hd : y ∈ List.drop (List.takeWhile isEmailLocalChar cs).length cs := by
              rw [heq2]
              exact List.mem_cons_of_mem _ hy
            exact List.mem_of_mem_drop hd
          have hat : ('@' : Char) ∈ cs := by
            have hd : ('@' : Char) ∈ List.drop (List.takeWhile isEmailLocalChar cs).length cs := by
              rw [heq2]
              exact List.mem_cons_self _ _
            exact List.mem_of_mem_drop hd
          have hdot : ('.' : Char) ∈ cs := by
            have hfit := List.find?_some heq3
            simp only [Bool.and_eq_true] at hfit
            rcases hfit with ⟨-, hfit2⟩
            split at hfit2
            · rename_i after heqd
              apply hr2
              have hd : ('.' : Char) ∈ List.drop dl rest2 := by
                rw [heqd]
                exact List.mem_cons_self _ _
              exact List.mem_of_mem_drop hd
            · exact Bool.noConfusion hfit2
          constructor
          · intro x hx
            simp only [List.mem_append, List.mem_cons, or_assoc] at hx
            rcases hx with hx | rfl | hx | rfl | hx
            · exact (List.takeWhile_sublist _).subset hx
            · exact hat
            · exact hr2 x (List.mem_of_mem_take hx)
            · exact hdot
            · exact hr2 x (List.mem_of_mem_drop ((List.takeWhile_sublist _).subset hx))
          · intro x hx
            exact hr2 x (List.mem_of_mem_drop (List.mem_of_mem_drop hx))
        · exact Option.noConfusion h
      · exact Option.noConfusion h
    · exact Option.noConfusion h

theorem matcherSub_paths : ∀ m ∈ pathMatchers, MatcherSub m := by
  intro m hm
  simp only [pathMatchers, List.mem_cons, List.not_mem_nil, or_false] at hm
  rcases hm with rfl | rfl | rfl | rfl | rfl
  · exact matcherSub_winPathM
  · exact matcherSub_unixPathM
  · exact matcherSub_homePathM
  · exact matcherSub_relPathM
  · exact matcherSub_parentPathM

end DesktopMCP

namespace DesktopMCP

/-! ### Entity and parameter values built from a lower-case-fixed command -/

theorem extract_common_entities_lower {command : String}
    (hc : ∀ c ∈ command.data, pyLowerChar c = c) :
    EntsLower (extract_common_entities command) := by
  intro q hq
  simp only [extract_common_entities, List.mem_append] at hq
  rcases hq with ((((hq | hq) | hq) | hq) | hq)
  · split at hq
    · rename_i l heqp
      rcases List.mem_singleton.mp hq with rfl
      rcases List.mem_map.mp (List.mem_of_find?_eq_some heqp) with ⟨m, hm, hl⟩
      subst hl
      exact valLower_map_str (fun g hg c hcc =>
        hc c (findAll_sub (matcherSub_paths m hm) command.data g hg c hcc))
    · exact absurd hq (List.not_mem_nil q)
  · split at hq
    · exact absurd hq (List.not_mem_nil q)
    · rcases List.mem_singleton.mp hq with rfl
      exact valLower_map_str (fun g hg c hcc =>
        hc c (findAll_sub matcherSub_urlM command.data g hg c hcc))
  · split at hq
    · exact absurd hq (List.not_mem_nil q)
    · rcases List.mem_singleton.mp hq with rfl
      exact valLower_map_str (fun g hg c hcc =>
        hc c (findAll_sub matcherSub_emailM command.data g hg c hcc))
  · split at hq
    · exact absurd hq (List.not_mem_nil q)
    · rcases List.mem_singleton.mp hq with rfl
      exact valLower_map_int
  · split at hq
    · exact absurd hq (List.not_mem_nil q)
    · rcases List.mem_singleton.mp hq with rfl
      exact valLower_map_str (fun g hg c hcc =>
        hc c (findAll_sub matcherSub_quotedM command.data g hg c hcc))

theorem extract_entities_from_match_lower {gs : List (List Char)} {pat : CommandPattern}
    {cs : List Char} (hsub : ∀ g ∈ gs, ∀ c ∈ g, c ∈ cs)
    (hcs : ∀ c ∈ cs, pyLowerChar c = c) :
    EntsLower (extract_entities_from_match gs pat) := by
  have hg0 : ValLower (match gs.head? with
      | some g => PyVal.str ⟨g⟩
      | Option.none => PyVal.none) := by
    split
    · rename_i g hh
      simp only [ValLower]
      intro c hcc
      exact hcs c (hsub g (List.mem_of_mem_head? hh) c hcc)
    · simp only [ValLower]
  intro q hq
  simp only [extract_entities_from_match, List.mem_append] at hq
  rcases hq with (hq | hq) | hq
  · split at hq
    · rcases List.mem_singleton.mp hq with rfl
      exact hg0
    · exact absurd hq (List.not_mem_nil q)
  · split at hq
    · rcases List.mem_singleton.mp hq with rfl
      exact hg0
    · exact absurd hq (List.not_mem_nil q)
  · split at hq
    · rcases List.mem_singleton.mp hq with rfl
      exact hg0
    · exact absurd hq (List.not_mem_nil q)

theorem map_parameters_lower {entities : List (String × PyVal)}
    {mapping : List (String × String)} (he : EntsLower entities) :
    EntsLower (map_parameters entities mapping) := by
  unfold map_parameters
  refine foldl_invariant_mem EntsLower _ mapping ?_ [] ?_
  · intro b a _ hb
    dsimp only
    split
    · exact entsLower_dictInsert hb (valLower_dictGet he a.1)
    · exact hb
  · intro q hq
    cases hq

theorem infer_parameters_lower {reg : ToolRegistry} {entities : List (String × PyVal)}
    {tn : Option String} (he : EntsLower entities) :
    EntsLower (infer_parameters reg entities tn) := by
  unfold infer_parameters
  split
  · intro q hq
    cases hq
  · split
    · intro q hq
      cases hq
    · refine foldl_invariant_mem EntsLower _ _ ?_ [] ?_
      · intro b a _ hb
        dsimp only
        repeat' split
        all_goals first
          | exact hb
          | exact entsLower_dictInsert hb (valLower_pyListHead (valLower_dictGet he _))
          | exact entsLower_dictInsert hb (valLower_dictGet he _)
      · intro q hq
        cases hq

/-- A parsed command whose entity values and parameter values all survive
lower-casing. -/
def PCLower (pc : ParsedCommand) : Prop :=
  EntsLower pc.entities ∧ EntsLower (pc.parameters.getD [])

theorem pcLower_unknownCommand : PCLower unknownCommand :=
  ⟨fun q hq => absurd hq (List.not_mem_nil q), fun q hq => absurd hq (List.not_mem_nil q)⟩

end DesktopMCP

namespace DesktopMCP

/-! ### Lower-case fixedness through the parser pipeline -/

/-- Fold invariant for `_match_patterns`: any candidate held in the accumulator
has lower-case-fixed entities and parameters. -/
def PatLowerInv (st : Option ParsedCommand × ℚ) : Prop :=
  ∀ pc, st.1 = some pc → PCLower pc

theorem patternFuzzyStep_lowerInv {env : Env} {pat : CommandPattern} {command : String}
    (hc : ∀ c ∈ command.data, pyLowerChar c = c)
    {st : Option ParsedCommand × ℚ} (hst : PatLowerInv st) (ex : String) :
    PatLowerInv (patternFuzzyStep env pat command st ex) := by
  simp only [patternFuzzyStep]
  split
  · intro pc hpc
    injection hpc with hpc
    subst hpc
    exact ⟨extract_common_entities_lower hc,
           map_parameters_lower (extract_common_entities_lower hc)⟩
  · exact hst

theorem patternStep_lowerInv {env : Env} {command : String}
    (hc : ∀ c ∈ command.data, pyLowerChar c = c)
    {st : Option ParsedCommand × ℚ} (hst : PatLowerInv st) (pat : CommandPattern) :
    PatLowerInv (patternStep env command st pat) := by
  simp only [patternStep]
  have h1 : PatLowerInv (match reSearch (templateElems pat.pattern) command.data with
      | some gs =>
        if mkRat 9 10 > st.2 then
          (some { intent := pat.intent, action := pat.action,
                  entities := extract_entities_from_match gs pat,
                  confidence := mkRat 9 10, tool_name := some pat.tool_name,
                  parameters := some (map_parameters (extract_entities_from_match gs pat)
                    pat.parameter_mapping) },
           mkRat 9 10)
        else st
      | Option.none => st) := by
    split
    · rename_i gs hgs
      split
      · intro pc hpc
        injection hpc with hpc
        subst hpc
        have hents := @extract_entities_from_match_lower gs pat command.data
          (reSearch_sub command.data gs hgs) hc
        exact ⟨hents, map_parameters_lower hents⟩
      · exact hst
    · exact hst
  split
  · exact foldl_invariant_mem PatLowerInv _ pat.examples
      (fun b a _ hb => patternFuzzyStep_lowerInv hc hb a) _ h1
  · exact h1

theorem match_patterns_lower {env : Env} {pats : List CommandPattern} {command : String}
    (hc : ∀ c ∈ command.data, pyLowerChar c = c) :
    PCLower (match_patterns env pats command) := by
  simp only [match_patterns]
  have hfin : PatLowerInv (pats.foldl (patternStep env command) (Option.none, 0)) :=
    foldl_invariant_mem PatLowerInv _ pats
      (fun b a _ hb => patternStep_lowerInv hc hb a)
      (Option.none, 0) (fun pc hpc => Option.noConfusion hpc)
  cases hf : (pats.foldl (patternStep env command) (Option.none, 0)).1 with
  | none => exact pcLower_unknownCommand
  | some pc => exact hfin pc hf

theorem match_tool_names_lower {env : Env} {reg : ToolRegistry} {command : String}
    (hc : ∀ c ∈ command.data, pyLowerChar c = c) :
    PCLower (match_tool_names env reg command) := by
  simp only [match_tool_names]
  split
  · rename_i tool heq
    exact ⟨extract_common_entities_lower hc,
           @infer_parameters_lower reg (extract_common_entities command)
             (some tool.metadata.name) (extract_common_entities_lower hc)⟩
  · exact pcLower_unknownCommand

theorem parse_with_nlp_lower {env : Env} {reg : ToolRegistry} {command : String}
    (hc : ∀ c ∈ command.data, pyLowerChar c = c)
    (hents : ∀ q ∈ env.ents command, ∀ c ∈ q.2.data, c ∈ command.data) :
    PCLower (parse_with_nlp env reg command) := by
  simp only [parse_with_nlp]
  split
  · exact pcLower_unknownCommand
  · have h0 : EntsLower ((env.ents command).foldl
        (fun d q => dictInsert d (pyLower q.1) (PyVal.str q.2)) []) := by
      refine foldl_invariant_mem EntsLower _ (env.ents command) ?_ [] ?_
      · intro b a ha hb
        dsimp only
        refine entsLower_dictInsert hb ?_
        simp only [ValLower]
        intro c hcc
        exact hc c (hents a ha c hcc)
      · intro q hq
        cases hq
    have h1 : EntsLower (dictUpdate ((env.ents command).foldl
        (fun d q => dictInsert d (pyLower q.1) (PyVal.str q.2)) [])
        (extract_common_entities command)) :=
      entsLower_dictUpdate _ _ h0 (extract_common_entities_lower hc)
    exact ⟨h1, infer_parameters_lower h1⟩

theorem parse_command_tail_lower {env : Env} {st : ParserState} {command : String}
    {pr : ParsedCommand} (hc : ∀ c ∈ command.data, pyLowerChar c = c)
    (hpr : PCLower pr) : PCLower (parse_command_tail env st command pr) := by
  simp only [parse_command_tail]
  split
  · exact match_tool_names_lower hc
  · rename_i hcond
    split
    · refine ⟨?_, ?_⟩
      · intro q hq
        rcases List.mem_singleton.mp hq with rfl
        simp only [ValLower]
        exact hc
      · intro q hq
        cases hq
    · exact hpr

/-- Entities and parameters of any parse result survive lower-casing, given
that each spaCy entity text consists of characters of the analysed document. -/
theorem parse_command_lower (env : Env) (st : ParserState) (s : String)
    (hents : ∀ t : String, ∀ q ∈ env.ents t, ∀ c ∈ q.2.data, c ∈ t.data) :
    PCLower (parse_command env st s) := by
  have hc : ∀ c ∈ (pyNormalize s).data, pyLowerChar c = c := pyNormalize_lowerFixed s
  simp only [parse_command]
  split
  · exact pcLower_unknownCommand
  · split
    · exact match_patterns_lower hc
    · split
      · split
        · exact parse_with_nlp_lower hc (hents (pyNormalize s))
        · exact parse_command_tail_lower hc (match_patterns_lower hc)
      · exact parse_command_tail_lower hc (match_patterns_lower hc)

/-- `parse_command` only depends on the trimmed, lower-cased input. -/
theorem parse_command_normalize (env : Env) (st : ParserState) (s : String) :
    parse_command env st s = parse_command env st (pyLower (pyStrip s)) := by
  simp only [parse_command]
  rw [show pyNormalize (pyLower (pyStrip s)) = pyNormalize s from pyNormalize_idem s]

end DesktopMCP

namespace DesktopMCP

/-- C8: for every input string, `parse_command` returns the same
`ParsedCommand` on the original input and on the trimmed, lower-cased input
(the source first executes `command = command.strip().lower()`); and — given
that each spaCy entity text consists of characters of the analysed document,
as `ent.text` is a substring of `doc.text` — every entity value and every
parameter value of the result is fixed by lower-casing (app names, paths and
quoted strings are reported in lower case, never in the caller's original
casing). -/
theorem c8_normalized_lowercase (env : Env) (st : ParserState) (s : String)
    (hents : ∀ t : String, ∀ q ∈ env.ents t, ∀ c ∈ q.2.data, c ∈ t.data) :
    parse_command env st s = parse_command env st (pyLower (pyStrip s)) ∧
    (∀ q ∈ (parse_command env st s).entities, ValLower q.2) ∧
    ∀ q ∈ (parse_command env st s).parameters.getD [], ValLower q.2 := by
  refine ⟨parse_command_normalize env st s, ?_, ?_⟩
  · exact (parse_command_lower env st s hents).1
  · exact (parse_command_lower env st s hents).2

theorem c8_normalized_lowercase_witness :
    parse_command envNone {} " Open CALCULATOR " =
      parse_command envNone {} (pyLower (pyStrip " Open CALCULATOR ")) ∧
    (∀ q ∈ (parse_command envNone {} " Open CALCULATOR ").entities, ValLower q.2) ∧
    ∀ q ∈ (parse_command envNone {} " Open CALCULATOR ").parameters.getD [],
      ValLower q.2 :=
  c8_normalized_lowercase envNone {} " Open CALCULATOR "
    (fun t q hq => absurd hq (List.not_mem_nil q))

end DesktopMCP
